import Mathlib

/-!
Verification of the FullStack-Bench evaluation harness.

Each Python function relevant to the checked claims is shallowly embedded
as an executable Lean definition, translated directly from the source under
scrutiny.  Machine integers are modelled as `Nat`/`Int` with explicit
reduction modulo `2 ^ 32` where the algorithm (SHA-256) works on 32-bit
words.  File systems are modelled as association lists or explicit lists of
rows, and fallible operations return explicit outcome types.
-/

/-! ## Python string primitives

Python's `str.count` and `str.replace` scan left to right and act on
non-overlapping occurrences.  They are modelled on `List Char`.
-/

/-- Worker for `pyCount`.  The `fuel` argument only makes the recursion
structural (each step consumes at least one character, so any fuel of at
least `hay.length + 1` gives the same answer); it lets the kernel evaluate
the function on concrete inputs. -/
def pyCountGo (needle : List Char) : Nat → List Char → Nat
  | 0, _ => 0
  | _ + 1, [] => if needle = [] then 1 else 0
  | fuel + 1, c :: rest =>
    if needle ≠ [] ∧ needle.isPrefixOf (c :: rest) then
      1 + pyCountGo needle fuel (List.drop (needle.length - 1) rest)
    else if needle = [] then
      1 + pyCountGo needle fuel rest
    else
      pyCountGo needle fuel rest

/-- Python `haystack.count(needle)`: number of non-overlapping, left-to-right
occurrences.  For an empty needle Python returns `len + 1`, which is
reproduced here. -/
def pyCount (needle hay : List Char) : Nat :=
  pyCountGo needle (hay.length + 1) hay

/-- Worker for `pyReplace`; `fuel` as in `pyCountGo`. -/
def pyReplaceGo (needle repl : List Char) : Nat → List Char → List Char
  | 0, l => l
  | _ + 1, [] => if needle = [] then repl else []
  | fuel + 1, c :: rest =>
    if needle ≠ [] ∧ needle.isPrefixOf (c :: rest) then
      repl ++ pyReplaceGo needle repl fuel (List.drop (needle.length - 1) rest)
    else if needle = [] then
      repl ++ c :: pyReplaceGo needle repl fuel rest
    else
      c :: pyReplaceGo needle repl fuel rest

/-- Python `haystack.replace(needle, repl)`: replaces every non-overlapping,
left-to-right occurrence.  For an empty needle Python inserts `repl` before
every character and at the end, which is reproduced here. -/
def pyReplace (needle repl hay : List Char) : List Char :=
  pyReplaceGo needle repl (hay.length + 1) hay

/-- Python `needle in haystack` for strings: substring containment, scanning
every position for a match. -/
def pyInStr : List Char → List Char → Bool
  | needle, [] => needle = ([] : List Char)
  | needle, c :: rest => needle.isPrefixOf (c :: rest) || pyInStr needle rest

/-! ## `src/src/utils/convert_path.py` -/

/-- ASCII letter test, mirroring the `[a-zA-Z]` character class of the
regular expression in the source. -/
def isAsciiLetter (c : Char) : Bool :=
  (('a' ≤ c ∧ c ≤ 'z') ∨ ('A' ≤ c ∧ c ≤ 'Z') : Prop)

/-- The anchored regular expression check of the source
(`re.compile(r'^[a-zA-Z]:\\')`): the string starts with an ASCII letter
followed by a colon and a backslash. -/
def isWindowsPath : List Char → Bool
  | c0 :: c1 :: c2 :: _ => isAsciiLetter c0 && c1 = ':' && c2 = '\\'
  | _ => false

/-- Python `ch.lower()` restricted to a single character (only ASCII letters
occur in the matched position). -/
def pyLowerChar (c : Char) : Char :=
  if 'A' ≤ c ∧ c ≤ 'Z' then Char.ofNat (c.toNat + 32) else c

/-- Embedding of `convert_windows_path_to_linux` from
`src/src/utils/convert_path.py`, on character lists: when the Windows
pattern matches, every backslash is turned into a forward slash and the
drive letter is rewritten to `/<lowercase letter>`; otherwise the input is
returned unchanged. -/
def convertWindowsPathToLinuxL (path : List Char) : List Char :=
  if isWindowsPath path then
    let linuxPath := path.map (fun c => if c = '\\' then '/' else c)
    match linuxPath with
    | c0 :: _ :: rest => '/' :: pyLowerChar c0 :: rest
    | l => l
  else
    path

/-- String-level wrapper for `convert_windows_path_to_linux`. -/
def convert_windows_path_to_linux (path : String) : String :=
  String.mk (convertWindowsPathToLinuxL path.data)

/-! ## SHA-256 (`hashlib.sha256`)

The naming scheme of the Docker sandbox hashes a human-readable identifier
with SHA-256 (`_hash_name` in `src/src/utils/sandbox.py` and
`src/src/agents/agent_utils/sandbox.py`).  SHA-256 is embedded here over
byte lists (`Nat` values below 256) with 32-bit words represented as `Nat`
reduced modulo `2 ^ 32`, following FIPS 180-4.
-/

/-- 32-bit word modulus. -/
def w32 : Nat := 2 ^ 32

/-- Addition modulo `2 ^ 32`. -/
def add32 (a b : Nat) : Nat := (a + b) % w32

/-- Right rotation of a 32-bit word by `n` places. -/
def rotr32 (n x : Nat) : Nat := ((x >>> n) ||| (x <<< (32 - n))) % w32

/-- Bitwise complement of a 32-bit word. -/
def not32 (x : Nat) : Nat := x ^^^ (w32 - 1)

/-- SHA-256 `Ch` function. -/
def shaCh (x y z : Nat) : Nat := (x &&& y) ^^^ (not32 x &&& z)

/-- SHA-256 `Maj` function. -/
def shaMaj (x y z : Nat) : Nat := (x &&& y) ^^^ (x &&& z) ^^^ (y &&& z)

/-- SHA-256 big sigma 0. -/
def bsig0 (x : Nat) : Nat := rotr32 2 x ^^^ rotr32 13 x ^^^ rotr32 22 x

/-- SHA-256 big sigma 1. -/
def bsig1 (x : Nat) : Nat := rotr32 6 x ^^^ rotr32 11 x ^^^ rotr32 25 x

/-- SHA-256 small sigma 0. -/
def ssig0 (x : Nat) : Nat := rotr32 7 x ^^^ rotr32 18 x ^^^ (x >>> 3)

/-- SHA-256 small sigma 1. -/
def ssig1 (x : Nat) : Nat := rotr32 17 x ^^^ rotr32 19 x ^^^ (x >>> 10)

/-- The 64 SHA-256 round constants. -/
def shaK : List Nat :=
  [1116352408, 1899447441, 3049323471, 3921009573, 961987163,
   1508970993, 2453635748, 2870763221, 3624381080, 310598401,
   607225278, 1426881987, 1925078388, 2162078206, 2614888103,
   3248222580, 3835390401, 4022224774, 264347078, 604807628,
   770255983, 1249150122, 1555081692, 1996064986, 2554220882,
   2821834349, 2952996808, 3210313671, 3336571891, 3584528711,
   113926993, 338241895, 666307205, 773529912, 1294757372,
   1396182291, 1695183700, 1986661051, 2177026350, 2456956037,
   2730485921, 2820302411, 3259730800, 3345764771, 3516065817,
   3600352804, 4094571909, 275423344, 430227734, 506948616,
   659060556, 883997877, 958139571, 1322822218, 1537002063,
   1747873779, 1955562222, 2024104815, 2227730452, 2361852424,
   2428436474, 2756734187, 3204031479, 3329325298]

/-- The SHA-256 initial hash value. -/
def shaH0 : List Nat :=
  [1779033703, 3144134277, 1013904242, 2773480762,
   1359893119, 2600822924, 528734635, 1541459225]

/-- Message padding: a 0x80 byte, zeros up to 56 modulo 64, then the bit
length as an 8-byte big-endian integer. -/
def shaPad (msg : List Nat) : List Nat :=
  let bitLen := msg.length * 8
  let zeros := (119 - msg.length % 64) % 64
  msg ++ [0x80] ++ List.replicate zeros 0 ++
    (List.range 8).map (fun i => (bitLen >>> ((7 - i) * 8)) % 256)

/-- Group bytes into big-endian 32-bit words. -/
def bytesToWords : List Nat → List Nat
  | b0 :: b1 :: b2 :: b3 :: rest =>
    (((b0 * 256 + b1) * 256 + b2) * 256 + b3) :: bytesToWords rest
  | _ => []

/-- Worker for `chunks64`; `fuel` only makes the recursion structural. -/
def chunks64Go : Nat → List Nat → List (List Nat)
  | 0, _ => []
  | _ + 1, [] => []
  | fuel + 1, b :: rest => (b :: rest).take 64 :: chunks64Go fuel ((b :: rest).drop 64)

/-- Split a byte list into 64-byte blocks. -/
def chunks64 (l : List Nat) : List (List Nat) :=
  chunks64Go (l.length + 1) l

/-- Extend the 16 message words of a block with `t` further schedule
words. -/
def shaScheduleAux (t : Nat) (w : List Nat) : List Nat :=
  match t with
  | 0 => w
  | t + 1 =>
    let n := w.length
    let x := add32 (add32 (ssig1 (w.getD (n - 2) 0)) (w.getD (n - 7) 0))
      (add32 (ssig0 (w.getD (n - 15) 0)) (w.getD (n - 16) 0))
    shaScheduleAux t (w ++ [x])

/-- The 64-entry message schedule of a block. -/
def shaSchedule (w : List Nat) : List Nat := shaScheduleAux 48 w

/-- One SHA-256 compression round on the working variables. -/
def shaRound (st : List Nat) (wk : Nat × Nat) : List Nat :=
  let a := st.getD 0 0
  let b := st.getD 1 0
  let c := st.getD 2 0
  let d := st.getD 3 0
  let e := st.getD 4 0
  let f := st.getD 5 0
  let g := st.getD 6 0
  let h := st.getD 7 0
  let t1 := add32 (add32 (add32 h (bsig1 e)) (add32 (shaCh e f g) wk.2)) wk.1
  let t2 := add32 (bsig0 a) (shaMaj a b c)
  [add32 t1 t2, a, b, c, add32 d t1, e, f, g]

/-- Compress one 64-byte block into the running hash state. -/
def shaCompress (h : List Nat) (block : List Nat) : List Nat :=
  let w := shaSchedule (bytesToWords block)
  let st := (w.zip shaK).foldl shaRound h
  (h.zip st).map (fun p => add32 p.1 p.2)

/-- SHA-256 digest of a byte list, as a list of 32 bytes. -/
def sha256 (msg : List Nat) : List Nat :=
  let hFinal := (chunks64 (shaPad msg)).foldl shaCompress shaH0
  hFinal.flatMap (fun wd => (List.range 4).map (fun i => (wd >>> ((3 - i) * 8)) % 256))

/-- Lowercase hexadecimal digit. -/
def hexDigit (n : Nat) : Char :=
  if n < 10 then Char.ofNat (48 + n) else Char.ofNat (87 + n)

/-- Lowercase hexadecimal rendering of a byte list
(like Python's `hexdigest`). -/
def bytesToHex (bs : List Nat) : List Char :=
  bs.flatMap (fun b => [hexDigit (b / 16), hexDigit (b % 16)])

/-- UTF-8 encoding of one unicode scalar value (Python `str.encode("utf-8")`
per character). -/
def utf8Char (c : Char) : List Nat :=
  let n := c.toNat
  if n < 0x80 then [n]
  else if n < 0x800 then
    [0xC0 ||| (n >>> 6), 0x80 ||| (n &&& 0x3F)]
  else if n < 0x10000 then
    [0xE0 ||| (n >>> 12), 0x80 ||| ((n >>> 6) &&& 0x3F), 0x80 ||| (n &&& 0x3F)]
  else
    [0xF0 ||| (n >>> 18), 0x80 ||| ((n >>> 12) &&& 0x3F),
     0x80 ||| ((n >>> 6) &&& 0x3F), 0x80 ||| (n &&& 0x3F)]

/-- UTF-8 encoding of a string. -/
def utf8Encode (s : String) : List Nat := s.data.flatMap utf8Char

/-- Embedding of `_hash_name` (identical in `src/src/utils/sandbox.py` and
`src/src/agents/agent_utils/sandbox.py`): the first 12 lowercase hex
characters of the SHA-256 digest of the UTF-8 encoded name. -/
def hashName (name : String) : String :=
  String.mk ((bytesToHex (sha256 (utf8Encode name))).take 12)

/-! ## Docker Compose naming (`create_docker_compose_file`)

Both `src/src/utils/sandbox.py` and `src/src/agents/agent_utils/sandbox.py`
derive the sandbox names from `readable_name`, the base name of the
directory holding the compose file.  Only the naming portion of the
generated compose mapping is modelled: the container name of the
`workspace` service, the key of the named volume (also referenced from the
service volume list), and the key of the bridge network (also referenced
from the service network list). -/

structure ComposeNames where
  container : String
  volume : String
  network : String
deriving DecidableEq, Repr

/-- Names written by `create_docker_compose_file` in
`src/src/utils/sandbox.py`: `container_name = f"container_{name_hash}"` and
the compose content uses `f"postgres_data_{container_name}"` and
`f"webgen_network_{container_name}"` for the volume and network (the local
variables holding `postgres_data_{name_hash}` and
`webgen_network_{name_hash}` are computed but not used in the content). -/
def utilsComposeNames (readableName : String) : ComposeNames :=
  let nameHash := hashName readableName
  let containerName := "container_" ++ nameHash
  { container := containerName
    volume := "postgres_data_" ++ containerName
    network := "webgen_network_" ++ containerName }

/-- Names written by `create_docker_compose_file` in
`src/src/agents/agent_utils/sandbox.py`: the compose content uses
`container_name`, `volume_prefix` and `network_name`, which are
`container_{name_hash}`, `postgres_data_{name_hash}` and
`webgen_network_{name_hash}`. -/
def agentUtilsComposeNames (readableName : String) : ComposeNames :=
  let nameHash := hashName readableName
  { container := "container_" ++ nameHash
    volume := "postgres_data_" ++ nameHash
    network := "webgen_network_" ++ nameHash }

/-- Lowercase-hex-digit test (the alphabet of `hexdigest`). -/
def isHexDigitChar (c : Char) : Bool :=
  (48 ≤ c.toNat ∧ c.toNat ≤ 57) ∨ (97 ≤ c.toNat ∧ c.toNat ≤ 102)

/-! ## History compression (`Agent._compress_history`)

From `src/src/agents/core/agent.py`.  A conversation message is reduced to
the fields the compression logic inspects: its `role`, its `content`, and
the number of entries of its `tool_calls` list (`0` when the key is absent
or the list empty — the source checks `"tool_calls" in msg and
msg["tool_calls"]`, i.e. presence and truthiness). -/

structure ChatMessage where
  role : String
  content : String
  numToolCalls : Nat
deriving DecidableEq, Repr

/-- The source's test for an assistant message bearing tool calls. -/
def isAWT (m : ChatMessage) : Bool :=
  m.role == "assistant" && m.numToolCalls != 0

/-- The grouping loop of `_compress_history` (started at index 3 by the
caller): an assistant message with tool calls absorbs every directly
following `tool`-role message into one group; any other message forms a
singleton group. -/
def groupHistory : List ChatMessage → List (List ChatMessage)
  | [] => []
  | m :: rest =>
    if isAWT m then
      (m :: rest.takeWhile (fun x => x.role == "tool")) ::
        groupHistory (rest.dropWhile (fun x => x.role == "tool"))
    else
      [m] :: groupHistory rest
termination_by l => l.length
decreasing_by
  · have h := List.Sublist.length_le
      (List.dropWhile_sublist (l := rest) (fun x : ChatMessage => x.role == "tool"))
    simp only [List.length_cons]
    omega
  · simp

/-- Python `xs[:-t]` for `t ≥ 0` (`xs[:-0]` is `xs[:0] = []`). -/
def pySliceToNeg (t : Nat) (xs : List α) : List α :=
  if t = 0 then [] else xs.take (xs.length - t)

/-- Python `xs[-t:]` for `t ≥ 0` (`xs[-0:]` is `xs[0:] = xs`). -/
def pySliceFromNeg (t : Nat) (xs : List α) : List α :=
  if t = 0 then xs else xs.drop (xs.length - t)

/-- The message `_compress_history` inserts in place of the compressed
groups when the summarisation request succeeds with `content`. -/
def compressedHistoryMessage (content : String) : ChatMessage :=
  { role := "system"
    content := "<COMPRESSED_HISTORY>" ++ content ++ "</COMPRESSED_HISTORY>"
    numToolCalls := 0 }

/-- Embedding of `Agent._compress_history`, returning the new history.
`threshold` stands for `compression_threshold =
int(len(grouped_history) * compression_ratio)` — the floating-point product
is not re-modelled, the theorems hold for every value of `threshold`.
`llmResult` is the outcome of the `llm_generation` summarisation call of
the `try` block: `some content` on success, `none` when the call raises and
the `except` fallback runs. -/
def compressHistory (maxHistoryLength threshold : Nat) (force : Bool)
    (llmResult : Option String) (history : List ChatMessage) : List ChatMessage :=
  if history.length > maxHistoryLength ∨ force then
    let grouped := groupHistory (history.drop 3)
    if grouped.length ≤ maxHistoryLength ∧ ¬force then
      history
    else
      let compressedGroups := if threshold > 0 then pySliceToNeg threshold grouped else grouped
      let remainingGroups := if threshold > 0 then pySliceFromNeg threshold grouped else []
      let compressedPart := compressedGroups.flatten
      let remainingHistory := remainingGroups.flatten
      if compressedPart = [] then
        history.take 3 ++ remainingHistory
      else
        match llmResult with
        | some content =>
          history.take 3 ++ compressedHistoryMessage content :: remainingHistory
        | none =>
          history.take 3 ++ (pySliceFromNeg threshold grouped).flatten
  else
    history

/-- Well-formed conversation suffix: `tool`-role messages appear only as the
response block of an assistant message carrying tool calls, and such an
assistant message is followed by exactly one `tool` message per tool
call. -/
inductive WFHistory : List ChatMessage → Prop
  | nil : WFHistory []
  | plain (m : ChatMessage) (rest : List ChatMessage) :
      isAWT m = false → m.role ≠ "tool" → WFHistory rest →
      WFHistory (m :: rest)
  | group (m : ChatMessage) (ts rest : List ChatMessage) :
      isAWT m = true → (∀ t ∈ ts, t.role = "tool") →
      ts.length = m.numToolCalls → WFHistory rest →
      WFHistory (m :: (ts ++ rest))

/-- Adjacency invariant of a message list: every assistant message carrying
`k` tool calls is immediately and contiguously followed by `k` `tool`-role
messages. -/
def adjacencyOK (l : List ChatMessage) : Prop :=
  ∀ a (m : ChatMessage) b, l = a ++ m :: b → isAWT m = true →
    m.numToolCalls ≤ b.length ∧ ∀ t ∈ b.take m.numToolCalls, t.role = "tool"

/-! ## Edit tool (`EditTool.execute`)

From `src/src/agents/tools/edit_tool.py`.  Parameter validation and the
operating-system failure branches (permission, missing directory, disk
full) are outside the checked claim and are modelled as succeeding; the
`error.type` strings are the literal strings of the source.  The file
system is an association of paths to contents; a file's content is read,
normalised from CRLF to LF, counted, and replaced exactly as in the
source. -/

/-- String-level Python `replace`. -/
def pyReplaceS (s needle repl : String) : String :=
  String.mk (pyReplace needle.data repl.data s.data)

/-- String-level Python `count`. -/
def pyCountS (s needle : String) : Nat :=
  pyCount needle.data s.data

/-- Embedding of the module-level `apply_replacement` helper. -/
def applyReplacement (currentContent oldString newString : String) : String :=
  if oldString = "" then newString
  else pyReplaceS currentContent oldString newString

/-- Outcome of one `EditTool.execute` call: either a typed failure (the
source's `error.type` string) or success carrying the content written to
the file. -/
inductive EditOutcome where
  | failure (errType : String)
  | success (newContent : String)
deriving DecidableEq, Repr

/-- Core decision logic of `EditTool.execute` once the raw file state is
known: `fileExists` and `rawContent` describe the file at `path`
(`rawContent` is meaningful only when the file exists). -/
def editDecide (fileExists : Bool) (rawContent oldString newString : String)
    (expectedReplacements : Nat) : EditOutcome :=
  if fileExists = false ∧ oldString ≠ "" then
    .failure "file_not_found"
  else
    let currentContent :=
      if fileExists then pyReplaceS rawContent "\r\n" "\n" else ""
    let isNewFile := oldString = "" ∧ fileExists = false
    if isNewFile then
      .success newString
    else if oldString = "" ∧ fileExists = true then
      .failure "attempt_to_create_existing_file"
    else
      let occurrences := pyCountS currentContent oldString
      if occurrences = 0 then
        .failure "edit_no_occurrence_found"
      else if occurrences ≠ expectedReplacements then
        .failure "edit_expected_occurrence_mismatch"
      else if oldString = newString then
        .failure "edit_no_change"
      else
        .success (applyReplacement currentContent oldString newString)

/-- `EditTool.execute` on a file-system map: failure branches return before
the write and leave the map unchanged; success writes the new content at
`path`. -/
def editExecute (fs : String → Option String) (path oldString newString : String)
    (expectedReplacements : Nat) : EditOutcome × (String → Option String) :=
  let outcome := editDecide (fs path).isSome ((fs path).getD "") oldString newString
    expectedReplacements
  match outcome with
  | .success c => (outcome, fun q => if q = path then some c else fs q)
  | .failure _ => (outcome, fs)

/-! ## Backend test payload (`_prepare_payload`)

From `src/src/agents/tools/backend_test_tool.py`.  The `data` argument has
already been produced by JSON-decoding the tool-call arguments, so it is
`None`, a dict, a list, a string, or some other scalar.  `json.loads` is an
external library function and is passed in as the oracle `jsonLoads`
(returning `some` of the parsed value exactly when the string parses).
Headers form an association list with Python-dict update semantics. -/

/-- The runtime type cases `_prepare_payload` distinguishes for `raw`;
`J` is the type of decoded JSON values. -/
inductive RawData (J : Type) where
  | pyNone
  | pyDict (j : J)
  | pyList (j : J)
  | pyStr (s : String)
  | pyOther (j : J)
deriving DecidableEq, Repr

/-- The request-body choice returned to `requests.request`: nothing,
a `json=` body, or a `data=` body (a string or another raw value). -/
inductive Payload (J : Type) where
  | empty
  | jsonBody (j : J)
  | rawBodyStr (s : String)
  | rawBody (j : J)
deriving DecidableEq, Repr

/-- ASCII `str.lower`. -/
def pyLower (s : String) : String := String.mk (s.data.map pyLowerChar)

/-- The source's check
`"content-type" not in (k.lower() for k in headers.keys())`, negated. -/
def hasContentType (headers : List (String × String)) : Bool :=
  headers.any (fun kv => pyLower kv.1 == "content-type")

/-- The header mutation of step 3 of `_prepare_payload`: add
`Content-Type: application/json` when no content-type key is present. -/
def addContentTypeIfMissing (headers : List (String × String)) : List (String × String) :=
  if hasContentType headers then headers
  else headers ++ [("Content-Type", "application/json")]

/-- Embedding of `_prepare_payload`. -/
def preparePayload (jsonLoads : String → Option J) (raw : RawData J)
    (headers : List (String × String)) : Payload J × List (String × String) :=
  match raw with
  | .pyNone => (.empty, headers)
  | .pyDict j => (.jsonBody j, headers)
  | .pyList j => (.jsonBody j, headers)
  | .pyStr s =>
    match jsonLoads s with
    | some j => (.jsonBody j, headers)
    | none => (.rawBodyStr s, addContentTypeIfMissing headers)
  | .pyOther j => (.rawBody j, addContentTypeIfMissing headers)

/-! ## Database watcher (`DBWatcher`)

From `src/src/utils/db_watcher.py`.  A log file is its name together with
its CSV-decoded rows (the `csv` module is external; rows arrive parsed).
The watcher's checkpoint is an association list from file name to row
offset with Python-dict semantics.  `files` lists the existing `*.csv`
files in ascending modification-time order, so `sorted(...)[-1]` is the
last element.  Exceptions (an empty first cell, a short all-digit first
cell, a header without recognised column names, an empty file list) are
modelled as `none`. -/

/-- ASCII whitespace for Python `str.strip`. -/
def isPySpace (c : Char) : Bool :=
  c = ' ' ∨ c = '\t' ∨ c = '\n' ∨ c = '\r' ∨ c = '\x0b' ∨ c = '\x0c'

/-- Python `str.strip()` (ASCII whitespace). -/
def pyStrip (s : String) : String :=
  String.mk (((s.data.dropWhile isPySpace).reverse.dropWhile isPySpace).reverse)

/-- Python `str.rstrip()` (ASCII whitespace). -/
def pyRstrip (s : String) : String :=
  String.mk ((s.data.reverse.dropWhile isPySpace).reverse)

/-- Embedding of `_looks_like_log_row`: `first_cell[:4].isdigit() and
first_cell[4] == "-"`.  Indexing `first_cell[4]` raises `IndexError`
(modelled `none`) when the all-digit prefix test passed but the cell is
shorter than five characters. -/
def looksLikeLogRow (firstCell : String) : Option Bool :=
  let t := firstCell.data.take 4
  if t ≠ [] ∧ t.all Char.isDigit then
    match firstCell.data.get? 4 with
    | some c => some (c = '-')
    | none => none
  else
    some false

/-- Python `list.index`, returning `none` where Python raises
`ValueError`. -/
def pyIndexOf (names : List String) (key : String) : Option Nat :=
  names.findIdx? (fun n => n == key)

/-- Column layout determined by `_read_from` from the first row. -/
inductive ReadLayout where
  | emptyFile
  | layout (data : List (List String)) (idxTs idxMsg : Nat)
deriving DecidableEq, Repr

/-- Header/column detection of `_read_from`: a timestamp-looking first cell
means the PostgreSQL fixed layout (`log_time` at 0, `message` at 13) with
the first row included as data; otherwise the first row is a header whose
`ts`/`log_time` and `msg`/`message` columns are located by name. -/
def parseLayout (rows : List (List String)) : Option ReadLayout :=
  match rows with
  | [] => some .emptyFile
  | firstRow :: restRows =>
    firstRow.head?.bind (fun firstCell =>
      (looksLikeLogRow firstCell).bind (fun isLogRow =>
        if isLogRow then
          some (.layout (firstRow :: restRows) 0 13)
        else
          (pyIndexOf (firstRow.map pyStrip) "ts" <|>
              pyIndexOf (firstRow.map pyStrip) "log_time").bind (fun idxTs =>
            (pyIndexOf (firstRow.map pyStrip) "msg" <|>
                pyIndexOf (firstRow.map pyStrip) "message").bind (fun idxMsg =>
              some (.layout restRows idxTs idxMsg)))))

/-- One parsed log entry as produced by `_read_from`. -/
structure LogEntry where
  timestamp : String
  message : String
deriving DecidableEq, Repr

/-- The enumeration loop of `_read_from`: data rows at positions at least
`startPos` are emitted; a row too short for either column index raises
`IndexError` inside the `try` and is skipped. -/
def collectEntries (idxTs idxMsg startPos : Nat) (data : List (List String)) :
    List LogEntry :=
  (data.drop startPos).filterMap (fun row =>
    match row.get? idxTs, row.get? idxMsg with
    | some ts, some msg => some ⟨ts, msg⟩
    | _, _ => none)

/-- Embedding of `DBWatcher._read_from` on the parsed rows of one file. -/
def readFrom (rows : List (List String)) (startPos : Nat) : Option (List LogEntry) :=
  match parseLayout rows with
  | none => none
  | some .emptyFile => some []
  | some (.layout data idxTs idxMsg) => some (collectEntries idxTs idxMsg startPos data)

/-- The SQL keywords of `_SQL_KEYWORDS`. -/
def sqlKeywords : List String :=
  ["SELECT", "INSERT", "UPDATE", "DELETE", "CREATE", "DROP", "ALTER",
   "TRUNCATE", "MERGE", "WITH", "BEGIN", "COMMIT", "ROLLBACK", "EXPLAIN",
   "VACUUM", "COPY", "GRANT", "REVOKE"]

/-- ASCII `str.upper` on one character. -/
def pyUpperChar (c : Char) : Char :=
  if 'a' ≤ c ∧ c ≤ 'z' then Char.ofNat (c.toNat - 32) else c

/-- Word character of the regular-expression `\b` boundary
(`[A-Za-z0-9_]` in the ASCII model). -/
def isWordChar (c : Char) : Bool :=
  c.isAlphanum || c == '_'

/-- Case-insensitive match of keyword `kw` (given uppercase) at position
`i` of `s`, with `\b` word boundaries on both sides. -/
def matchesKeywordAt (s : List Char) (i : Nat) (kw : List Char) : Bool :=
  let seg := (s.drop i).take kw.length
  seg.length = kw.length ∧ seg.map pyUpperChar = kw ∧
  (i = 0 ∨ isWordChar (s.getD (i - 1) ' ') = false) ∧
  isWordChar (s.getD (i + kw.length) ' ') = false

/-- Embedding of `_SQL_RE.search`: some SQL keyword occurs somewhere in the
string, case-insensitively and surrounded by word boundaries. -/
def sqlRegexSearch (s : String) : Bool :=
  (List.range (s.data.length + 1)).any (fun i =>
    sqlKeywords.any (fun kw => matchesKeywordAt s.data i kw.data))

/-- Embedding of `filter_sql_entries` with its default
`keep_durations=False` (as called by `get_new_entries`). -/
def filterSqlEntries (entries : List LogEntry) : List LogEntry :=
  entries.filter (fun e => sqlRegexSearch e.message)

/-- Checkpoint lookup, Python `dict.get(path, 0)`. -/
def ckptGet (ckpt : List (String × Nat)) (name : String) : Nat :=
  match ckpt.find? (fun kv => kv.1 == name) with
  | some kv => kv.2
  | none => 0

/-- Checkpoint store, Python `dict[path] = v` (updates in place, appends a
new key at the end). -/
def ckptSet (ckpt : List (String × Nat)) (name : String) (v : Nat) :
    List (String × Nat) :=
  if ckpt.any (fun kv => kv.1 == name) then
    ckpt.map (fun kv => if kv.1 == name then (kv.1, v) else kv)
  else
    ckpt ++ [(name, v)]

/-- One existing CSV log file: its name and parsed rows. -/
structure LogFile where
  name : String
  rows : List (List String)
deriving DecidableEq, Repr

/-- Embedding of `DBWatcher.get_new_entries`: read the most recently
modified log file from its checkpoint, advance that checkpoint by the
number of rows read, drop checkpoints of vanished files (none vanish in
this model, where `files` are the existing files), and return the
SQL-bearing entries. -/
def getNewEntries (files : List LogFile) (ckpt : List (String × Nat)) :
    Option (List LogEntry × List (String × Nat)) :=
  match files.getLast? with
  | none => none
  | some latest =>
    let start := ckptGet ckpt latest.name
    match readFrom latest.rows start with
    | none => none
    | some newRows =>
      let ckpt1 := ckptSet ckpt latest.name (start + newRows.length)
      let ckpt2 := ckpt1.filter (fun kv => files.any (fun f => f.name == kv.1))
      some (filterSqlEntries newRows, ckpt2)

/-! ## Accuracy computation (`compute_acc`)

From `src/src/eval_tddev/compute_acc.py`.  Only the top-level counters of
the claim are modelled (the per-category and database-judgement tables
aggregate the same verdicts).  A task is the message list of its
`interact_messages.json`; tasks whose result directory lacks that file are
skipped by the source and therefore do not appear in `tasks`.  `total` is
the corpus-wide count of UI instructions from the test JSONL. -/

/-- The reverse scan `for message in data[-1::-1]` picking the content of
the last `assistant` message (the empty string when there is none). -/
def lastAssistantText (msgs : List (String × String)) : String :=
  match msgs.reverse.find? (fun m => m.1 == "assistant") with
  | some m => m.2
  | none => ""

/-- Running counters of the verdict loop. -/
structure AccCounts where
  yesNum : Nat
  partialNum : Nat
  noNum : Nat
  score : ℚ
deriving DecidableEq, Repr

/-- One iteration of the verdict loop: `"YES" in text` scores 1,
otherwise `"PARTIAL" in text` scores 0.5, otherwise the task counts as
`no`. -/
def tallyVerdict (acc : AccCounts) (text : String) : AccCounts :=
  if pyInStr "YES".data text.data then
    { acc with yesNum := acc.yesNum + 1, score := acc.score + 1 }
  else if pyInStr "PARTIAL".data text.data then
    { acc with partialNum := acc.partialNum + 1, score := acc.score + 1 / 2 }
  else
    { acc with noNum := acc.noNum + 1 }

/-- Verdict predicate: the task text contains the literal `YES`. -/
def hasYes (t : String) : Bool := pyInStr "YES".data t.data

/-- Verdict predicate: no `YES`, but the literal `PARTIAL` occurs. -/
def hasPartialOnly (t : String) : Bool :=
  !hasYes t && pyInStr "PARTIAL".data t.data

/-- Verdict predicate: neither `YES` nor `PARTIAL` occurs. -/
def hasNeither (t : String) : Bool :=
  !hasYes t && !pyInStr "PARTIAL".data t.data

/-- The top-level numbers reported by `compute_acc`. -/
structure AccResult where
  yesNum : Nat
  partialNum : Nat
  noNum : Nat
  score : ℚ
  accuracy : ℚ
  startFailedNum : Int
deriving DecidableEq, Repr

/-- Embedding of the top-level tally of `compute_acc`. -/
def computeAcc (tasks : List (List (String × String))) (total : Nat) : AccResult :=
  let c := tasks.foldl (fun acc t => tallyVerdict acc (lastAssistantText t)) ⟨0, 0, 0, 0⟩
  { yesNum := c.yesNum
    partialNum := c.partialNum
    noNum := c.noNum
    score := c.score
    accuracy := c.score / total * 100
    startFailedNum := (total : Int) - c.yesNum - c.partialNum - c.noNum }

/-! ## Grep tool (`GrepTool`)

From `src/src/agents/tools/grep_tool.py`.  File discovery and the
default-exclusion filters are not at issue in the claim; `files` is the
`filtered_files` list, each with its decoded lines, and `matchLine` is
`regex.search` for the compiled (case-insensitive) pattern — an external
regular-expression engine, passed as an oracle. -/

/-- One match record (`file`, 1-based `line`, `content` after
`line.rstrip()`). -/
structure GrepMatch where
  file : String
  line : Nat
  content : String
deriving DecidableEq, Repr

/-- The per-file scan: every line matched by `matchLine`, with its 1-based
line number. -/
def fileMatches (matchLine : String → Bool) (fileName : String)
    (lines : List String) : List GrepMatch :=
  lines.enum.filterMap (fun p =>
    if matchLine p.2 then some ⟨fileName, p.1 + 1, pyRstrip p.2⟩ else none)

/-- Accumulator of the match-collection loop. -/
structure GrepState where
  found : List GrepMatch
  totalFound : Nat
  truncated : Bool
deriving Repr

/-- The match-collection loop of `GrepTool.execute` over `filtered_files`:
stop when `maxResults` matches are collected, counting
`total_matches_found` only for files scanned before stopping. -/
def grepGo (maxResults : Nat) (matchLine : String → Bool) :
    List (String × List String) → GrepState → GrepState
  | [], st => st
  | f :: rest, st =>
    if st.found.length ≥ maxResults then
      { st with truncated := true }
    else
      let fm := fileMatches matchLine f.1 f.2
      let total := st.totalFound + fm.length
      let remainingSlots := maxResults - st.found.length
      if remainingSlots = 0 then
        { st with totalFound := total, truncated := true }
      else if fm.length > remainingSlots then
        { found := st.found ++ fm.take remainingSlots, totalFound := total,
          truncated := true }
      else
        grepGo maxResults matchLine rest
          { found := st.found ++ fm, totalFound := total, truncated := st.truncated }

/-- Embedding of the search phase of `GrepTool.execute`.  The truncation
banner renders `found.length` and `totalFound` (as
`showing first N of M+ total matches`); those numbers are kept
structurally. -/
def grepExecute (matchLine : String → Bool) (files : List (String × List String))
    (maxResults : Nat) : GrepState :=
  grepGo maxResults matchLine files ⟨[], 0, false⟩

/-- The true number of matching lines over all files handed to the loop. -/
def trueTotalMatches (matchLine : String → Bool)
    (files : List (String × List String)) : Nat :=
  (files.map (fun f => (fileMatches matchLine f.1 f.2).length)).sum

/-- Embedding of the `maxResults` clause of `GrepTool.validate_params`:
an explicit value outside 1–100 is rejected with an error message. -/
def validateMaxResults (maxResults : Option Int) : Option String :=
  match maxResults with
  | none => none
  | some v =>
    if v < 1 ∨ v > 100 then
      some ("maxResults must be an integer between 1 and 100, got: " ++ toString v)
    else
      none

/-! ## Port reclamation (`free_docker_port`)

From `src/src/utils/sandbox.py`.  The module imports `re`, `sys`,
`typing.List`, `os`, `subprocess`, `time`, `yaml`, `hashlib` and
`convert_windows_path_to_linux`, and defines five functions — but never
imports `docker`, which `free_docker_port` dereferences right after its
range check.  Name resolution is modelled over the module's global
namespace. -/

/-- The names bound at module level in `src/src/utils/sandbox.py`
(imports first, then the module's own `def`s; `from __future__ import
annotations` binds no runtime name). -/
def utilsSandboxModuleGlobals : List String :=
  ["re", "sys", "List", "os", "subprocess", "time", "yaml", "hashlib",
   "convert_windows_path_to_linux", "_hash_name", "free_docker_port",
   "write_logging_conf", "create_docker_compose_file",
   "start_docker_containers", "stop_docker_containers"]

/-- The Python exceptions `free_docker_port` can raise before any container
operation. -/
inductive PyExc where
  | valueError
  | nameError
deriving DecidableEq, Repr

/-- Embedding of `free_docker_port` up to its first effect: the range check
raises `ValueError`, then `docker.from_env()` resolves the global name
`docker`; an unbound name raises `NameError`.  The container enumeration
that would follow a successful lookup is unreachable (the name is unbound)
and is represented by an empty affected-container list. -/
def freeDockerPort (port : Int) : Except PyExc (List String) :=
  if ¬(1 ≤ port ∧ port ≤ 65535) then
    .error .valueError
  else if "docker" ∈ utilsSandboxModuleGlobals then
    .ok []
  else
    .error .nameError

/-! ## File reading with pagination (`ReadFileTool`)

From `src/src/agents/tools/file_tools.py`.  `lines` is the `readlines()`
decomposition of the file (each element keeps its trailing newline);
`offset` and `limit` are the validated parameters (`offset ≥ 0`, and a
supplied `limit` is positive). -/

/-- The `DEFAULT_MAX_LINES` class constant. -/
def DEFAULT_MAX_LINES : Nat := 2000

/-- The tuple produced by `_read_text_file_with_pagination`. -/
structure ReadPage where
  content : String
  isTruncated : Bool
  startLine : Nat
  endLine : Nat
  totalLines : Nat
deriving DecidableEq, Repr

/-- Embedding of `ReadFileTool._read_text_file_with_pagination`. -/
def readTextFileWithPagination (lines : List String) (offset : Nat)
    (limitOpt : Option Nat) : ReadPage :=
  let limit := limitOpt.getD DEFAULT_MAX_LINES
  let totalLines := lines.length
  let paginated :=
    if limit ≠ 0 then (lines.drop offset).take limit else lines.drop offset
  { content := String.join paginated
    isTruncated :=
      decide (paginated.length < (lines.drop offset).length) ||
        (decide (limit ≠ 0) && decide (totalLines > limit))
    startLine := offset + 1
    endLine := min (offset + paginated.length) totalLines
    totalLines := totalLines }

/-- The `next offset` the truncation notice of `ReadFileTool.execute`
advertises: `offset + (end_line - start_line + 1)` in Python integer
arithmetic. -/
def readNextOffset (offset : Nat) (p : ReadPage) : Int :=
  (offset : Int) + ((p.endLine : Int) - (p.startLine : Int) + 1)

/-! # Theorems -/

/-! ## Supporting facts about the embeddings -/

set_option maxRecDepth 100000 in
/-- Sanity anchor for the SHA-256 embedding: the digest of the empty
message matches the published test vector. -/
theorem sha256_empty_test_vector :
    String.mk (bytesToHex (sha256 [])) =
      "e3b0c44298fc1c149afbf4c8996fb92427ae41e4649b934ca495991b7852b855" := by
  decide

set_option maxRecDepth 100000 in
/-- Sanity anchor for `_hash_name`: the first 12 hex characters of
SHA-256 of the UTF-8 string `x`. -/
theorem hashName_x_test_vector : hashName "x" = "2d711642b726" := by
  decide

/-! ## C8 — path normalisation -/

/-- On a Windows-matching input the converter produces a slash, the
lowercased drive letter, and the backslash-converted remainder. -/
theorem convert_eq_of_windows (path : String) (h : isWindowsPath path.data = true) :
    convert_windows_path_to_linux path =
      String.mk ('/' :: pyLowerChar (path.data.headD ' ') ::
        (path.data.drop 2).map (fun c => if c = '\\' then '/' else c)) := by
  unfold convert_windows_path_to_linux convertWindowsPathToLinuxL
  rw [if_pos h]
  match hp : path.data with
  | [] => rw [hp] at h; simp [isWindowsPath] at h
  | [c0] => rw [hp] at h; simp [isWindowsPath] at h
  | c0 :: c1 :: rest =>
    rw [hp] at h
    have hc0 : isAsciiLetter c0 = true := by
      rcases rest with _ | ⟨c2, rest⟩
      · simp [isWindowsPath] at h
      · simp only [isWindowsPath, Bool.and_eq_true] at h
        exact h.1.1
    have hc0ne : c0 ≠ '\\' := by
      intro heq
      rw [heq] at hc0
      simp [isAsciiLetter] at hc0
    simp [hp, List.map_cons, if_neg hc0ne]

/-- A list starting with a slash never matches the Windows pattern. -/
theorem isWindowsPath_slash (x : Char) (l : List Char) :
    isWindowsPath ('/' :: x :: l) = false := by
  cases l with
  | nil => rfl
  | cons c2 tl => simp [isWindowsPath, isAsciiLetter]

/-- On a non-matching input the converter is the identity. -/
theorem convert_eq_of_not_windows (path : String) (h : isWindowsPath path.data = false) :
    convert_windows_path_to_linux path = path := by
  unfold convert_windows_path_to_linux convertWindowsPathToLinuxL
  rw [if_neg (by simp [h])]

/-- Claim C8: for every path string, a Windows drive-letter-and-backslash
input is rewritten to `/<lowercased letter>/...` with every backslash
turned into a forward slash, every other input is returned unchanged, and
the function is idempotent. -/
theorem convert_windows_path_spec (path : String) :
    (isWindowsPath path.data = true →
      convert_windows_path_to_linux path =
        String.mk ('/' :: pyLowerChar (path.data.headD ' ') ::
          (path.data.drop 2).map (fun c => if c = '\\' then '/' else c))) ∧
    (isWindowsPath path.data = false →
      convert_windows_path_to_linux path = path) ∧
    convert_windows_path_to_linux (convert_windows_path_to_linux path) =
      convert_windows_path_to_linux path := by
  refine ⟨convert_eq_of_windows path, convert_eq_of_not_windows path, ?_⟩
  by_cases h : isWindowsPath path.data = true
  · rw [convert_eq_of_windows path h]
    apply convert_eq_of_not_windows
    exact isWindowsPath_slash _ _
  · have h0 : isWindowsPath path.data = false := by
      revert h; cases isWindowsPath path.data <;> simp
    rw [convert_eq_of_not_windows path h0, convert_eq_of_not_windows path h0]

/-- Witness for C8 at concrete inputs: a Windows path is rewritten and an
already-POSIX path is unchanged. -/
theorem convert_windows_path_spec_witness :
    convert_windows_path_to_linux "D:\\research\\WebGen" = "/d/research/WebGen" ∧
    convert_windows_path_to_linux "/home/user/projects" = "/home/user/projects" := by
  constructor
  · exact ((convert_windows_path_spec "D:\\research\\WebGen").1 (by decide)).trans (by decide)
  · exact (convert_windows_path_spec "/home/user/projects").2.1 (by decide)

/-! ## C9 — `free_docker_port` dereferences an unbound name -/

/-- Claim C9: for every port in the valid range 1–65535,
`free_docker_port` in `src/src/utils/sandbox.py` raises `NameError` (the
module never imports `docker`) before any container operation, so it can
never return its documented list; out-of-range ports raise the documented
`ValueError`. -/
theorem free_docker_port_name_error (port : Int)
    (h1 : 1 ≤ port) (h2 : port ≤ 65535) :
    freeDockerPort port = .error .nameError ∧
    ("docker" ∈ utilsSandboxModuleGlobals) = False ∧
    ∀ q : Int, ¬(1 ≤ q ∧ q ≤ 65535) → freeDockerPort q = .error .valueError := by
  refine ⟨?_, ?_, ?_⟩
  · unfold freeDockerPort
    rw [if_neg (not_not_intro ⟨h1, h2⟩), if_neg (by decide)]
  · simp only [eq_iff_iff, iff_false]
    decide
  · intro q hq
    unfold freeDockerPort
    rw [if_pos hq]

/-- Witness for C9 at the PostgreSQL port 5432. -/
theorem free_docker_port_name_error_witness :
    freeDockerPort 5432 = .error .nameError :=
  (free_docker_port_name_error 5432 (by decide) (by decide)).1

/-! ## C10 — every page of an over-limit file is reported truncated -/

/-- Claim C10: when a text file has more lines than an explicitly supplied
`limit`, every page is reported truncated (including the final one), the
notice of a page reaching end-of-file advertises a next offset equal to
the total line count, and reading at that offset returns empty content. -/
theorem read_file_pagination_spec (lines : List String) (l : Nat)
    (hl : 1 ≤ l) (hgt : l < lines.length) :
    (∀ offset, (readTextFileWithPagination lines offset (some l)).isTruncated = true) ∧
    (∀ offset, lines.length ≤ offset + l →
      readNextOffset offset (readTextFileWithPagination lines offset (some l)) =
        (lines.length : Int)) ∧
    (readTextFileWithPagination lines lines.length (some l)).content = "" := by
  have hl0 : l ≠ 0 := by omega
  refine ⟨?_, ?_, ?_⟩
  · intro offset
    simp [readTextFileWithPagination, hl0, hgt]
  · intro offset hoff
    have hplen : ((lines.drop offset).take l).length = lines.length - offset := by
      simp only [List.length_take, List.length_drop]
      omega
    have hend : (readTextFileWithPagination lines offset (some l)).endLine =
        lines.length := by
      simp only [readTextFileWithPagination, Option.getD_some, if_pos hl0, hplen]
      omega
    have hstart : (readTextFileWithPagination lines offset (some l)).startLine =
        offset + 1 := by
      simp [readTextFileWithPagination]
    unfold readNextOffset
    rw [hend, hstart]
    push_cast
    ring_nf
  · have : lines.drop lines.length = [] := by
      simp
    simp [readTextFileWithPagination, hl0, this, String.join]

/-- Witness for C10: a three-line file read with limit 2. -/
theorem read_file_pagination_spec_witness :
    (readTextFileWithPagination ["a\n", "b\n", "c\n"] 2 (some 2)).isTruncated = true ∧
    readNextOffset 2 (readTextFileWithPagination ["a\n", "b\n", "c\n"] 2 (some 2)) = 3 ∧
    (readTextFileWithPagination ["a\n", "b\n", "c\n"] 3 (some 2)).content = "" := by
  have h := read_file_pagination_spec ["a\n", "b\n", "c\n"] 2 (by decide) (by decide)
  exact ⟨h.1 2, h.2.1 2 (by decide), h.2.2⟩

/-! ## C6 — accuracy computation -/

/-- `tallyVerdict` rephrased through the verdict predicates (definitional). -/
theorem tallyVerdict_eq (acc : AccCounts) (t : String) :
    tallyVerdict acc t =
      if hasYes t = true then
        { acc with yesNum := acc.yesNum + 1, score := acc.score + 1 }
      else if pyInStr "PARTIAL".data t.data = true then
        { acc with partialNum := acc.partialNum + 1, score := acc.score + 1 / 2 }
      else
        { acc with noNum := acc.noNum + 1 } := rfl

/-- The verdict loop, unrolled: starting from any accumulator it adds the
`YES` count, the `PARTIAL`-only count, the remainder, and the weighted
score. -/
theorem tally_foldl (texts : List String) (acc : AccCounts) :
    texts.foldl tallyVerdict acc =
      { yesNum := acc.yesNum + texts.countP (hasYes ·),
        partialNum := acc.partialNum + texts.countP (hasPartialOnly ·),
        noNum := acc.noNum + texts.countP (hasNeither ·),
        score := acc.score + (texts.countP (hasYes ·) : ℚ) +
          (texts.countP (hasPartialOnly ·) : ℚ) / 2 } := by
  induction texts generalizing acc with
  | nil => simp
  | cons t ts ih =>
    rcases hy : hasYes t with _ | _
    · rcases hp : pyInStr "PARTIAL".data t.data with _ | _
      · have h1 : hasPartialOnly t = false := by simp [hasPartialOnly, hp]
        have h2 : hasNeither t = true := by simp [hasNeither, hy, hp]
        simp only [List.foldl_cons, tallyVerdict_eq, hy, hp, if_false,
          Bool.false_eq_true, ih, List.countP_cons, h1, h2]
        simp only [AccCounts.mk.injEq, if_true, if_false, Bool.false_eq_true]
        norm_num
        repeat' apply And.intro
        all_goals first | omega | (push_cast; ring)
      · have h1 : hasPartialOnly t = true := by simp [hasPartialOnly, hy, hp]
        have h2 : hasNeither t = false := by simp [hasNeither, hp]
        simp only [List.foldl_cons, tallyVerdict_eq, hy, hp, if_true,
          Bool.false_eq_true, if_false, ih, List.countP_cons, h1, h2]
        simp only [AccCounts.mk.injEq, if_true, if_false, Bool.false_eq_true]
        norm_num
        repeat' apply And.intro
        all_goals first | omega | (push_cast; ring)
    · have h1 : hasPartialOnly t = false := by simp [hasPartialOnly, hy]
      have h2 : hasNeither t = false := by simp [hasNeither, hy]
      simp only [List.foldl_cons, tallyVerdict_eq, hy, if_true, ih,
        List.countP_cons, h1, h2]
      simp only [AccCounts.mk.injEq, if_true, if_false, Bool.false_eq_true]
      norm_num
      repeat' apply And.intro
      all_goals first | omega | (push_cast; ring)

/-- Claim C6: `compute_acc` reports `score = yes_num + 0.5 * partial_num`,
`accuracy = score / total * 100`, and
`start_failed_num = total - yes_num - partial_num - no_num`, with the three
counters counting `YES`, `PARTIAL`-only and remaining verdicts of the last
assistant turn of each task. -/
theorem compute_acc_spec (tasks : List (List (String × String))) (total : Nat)
    (htot : 0 < total) :
    computeAcc tasks total =
      { yesNum := (tasks.map lastAssistantText).countP (hasYes ·),
        partialNum := (tasks.map lastAssistantText).countP (hasPartialOnly ·),
        noNum := (tasks.map lastAssistantText).countP (hasNeither ·),
        score := ((tasks.map lastAssistantText).countP (hasYes ·) : ℚ) +
          ((tasks.map lastAssistantText).countP (hasPartialOnly ·) : ℚ) / 2,
        accuracy := (((tasks.map lastAssistantText).countP (hasYes ·) : ℚ) +
          ((tasks.map lastAssistantText).countP (hasPartialOnly ·) : ℚ) / 2) /
          (total : ℚ) * 100,
        startFailedNum := (total : Int) -
          (tasks.map lastAssistantText).countP (hasYes ·) -
          (tasks.map lastAssistantText).countP (hasPartialOnly ·) -
          (tasks.map lastAssistantText).countP (hasNeither ·) } := by
  have h0 : 0 < total := htot
  unfold computeAcc
  have hfold : tasks.foldl (fun acc t => tallyVerdict acc (lastAssistantText t))
      (⟨0, 0, 0, 0⟩ : AccCounts) =
      (tasks.map lastAssistantText).foldl tallyVerdict ⟨0, 0, 0, 0⟩ := by
    rw [List.foldl_map]
  rw [hfold, tally_foldl]
  simp

/-- Witness for C6: three `YES` tasks, two `PARTIAL` tasks and one other
out of a corpus of 10 yield score 4, accuracy 40 and 4 start failures. -/
theorem compute_acc_spec_witness :
    (0 < 10) ∧
    computeAcc
      [[("assistant", "YES")], [("assistant", "Verdict: YES.")],
       [("user", "q"), ("assistant", "YES again")],
       [("assistant", "PARTIAL")], [("assistant", "PARTIAL result")],
       [("assistant", "NO")]] 10 =
      { yesNum := 3, partialNum := 2, noNum := 1, score := 4, accuracy := 40,
        startFailedNum := 4 } := by
  have h := compute_acc_spec
    [[("assistant", "YES")], [("assistant", "Verdict: YES.")],
     [("user", "q"), ("assistant", "YES again")],
     [("assistant", "PARTIAL")], [("assistant", "PARTIAL result")],
     [("assistant", "NO")]] 10 (by decide)
  have hy : (List.map lastAssistantText
      [[("assistant", "YES")], [("assistant", "Verdict: YES.")],
       [("user", "q"), ("assistant", "YES again")],
       [("assistant", "PARTIAL")], [("assistant", "PARTIAL result")],
       [("assistant", "NO")]]).countP (hasYes ·) = 3 := by decide
  have hp : (List.map lastAssistantText
      [[("assistant", "YES")], [("assistant", "Verdict: YES.")],
       [("user", "q"), ("assistant", "YES again")],
       [("assistant", "PARTIAL")], [("assistant", "PARTIAL result")],
       [("assistant", "NO")]]).countP (hasPartialOnly ·) = 2 := by decide
  have hn : (List.map lastAssistantText
      [[("assistant", "YES")], [("assistant", "Verdict: YES.")],
       [("user", "q"), ("assistant", "YES again")],
       [("assistant", "PARTIAL")], [("assistant", "PARTIAL result")],
       [("assistant", "NO")]]).countP (hasNeither ·) = 1 := by decide
  rw [hy, hp, hn] at h
  refine ⟨by decide, h.trans ?_⟩
  simp only [AccResult.mk.injEq]
  norm_num

/-! ## C4 — backend-test request body selection -/

/-- Counterexample to C4 as stated: a caller who supplies headers (without
a content type) and a non-JSON string body still gets
`Content-Type: application/json` added — the source checks for a
case-insensitive `content-type` key, not for an empty header dict. -/
theorem prepare_payload_headers_counterexample :
    (preparePayload (J := Unit) (fun _ => none) (.pyStr "plain text")
        [("X-Custom", "1")]).2 =
      [("X-Custom", "1"), ("Content-Type", "application/json")] ∧
    (preparePayload (J := Unit) (fun _ => none) (.pyStr "plain text")
        [("X-Custom", "1")]).2 ≠ [("X-Custom", "1")] := by
  constructor
  · rfl
  · decide

/-- Claim C4 (amended): a dict or list is sent as a JSON body; a string
that parses is sent as the parsed JSON body; any other string is sent as a
raw body, and in that case `Content-Type: application/json` is added
exactly when the supplied headers have no case-insensitive `content-type`
key — in particular always when no headers were supplied. -/
theorem prepare_payload_spec {J : Type} (jsonLoads : String → Option J)
    (headers : List (String × String)) (j : J) (s : String) :
    preparePayload jsonLoads (.pyDict j) headers = (.jsonBody j, headers) ∧
    preparePayload jsonLoads (.pyList j) headers = (.jsonBody j, headers) ∧
    (∀ v, jsonLoads s = some v →
      preparePayload jsonLoads (.pyStr s) headers = (.jsonBody v, headers)) ∧
    (jsonLoads s = none →
      preparePayload jsonLoads (.pyStr s) headers =
        (.rawBodyStr s,
          if hasContentType headers = true then headers
          else headers ++ [("Content-Type", "application/json")])) ∧
    (jsonLoads s = none →
      preparePayload jsonLoads (.pyStr s) [] =
        (.rawBodyStr s, [("Content-Type", "application/json")])) := by
  refine ⟨rfl, rfl, ?_, ?_, ?_⟩
  · intro v hv
    simp [preparePayload, hv]
  · intro hn
    simp only [preparePayload, hn, addContentTypeIfMissing]
  · intro hn
    simp [preparePayload, hn, addContentTypeIfMissing, hasContentType]

/-- Witness for C4 at concrete inputs: the oracle accepts `1` and rejects
`plain`; with no supplied headers the content type is added. -/
theorem prepare_payload_spec_witness :
    preparePayload (J := Unit) (fun t => if t = "1" then some () else none)
      (.pyStr "1") [("A", "b")] = (.jsonBody (), [("A", "b")]) ∧
    preparePayload (J := Unit) (fun t => if t = "1" then some () else none)
      (.pyStr "plain") [] =
      (.rawBodyStr "plain", [("Content-Type", "application/json")]) := by
  have h := prepare_payload_spec (J := Unit)
    (fun t => if t = "1" then some () else none) [("A", "b")] () "1"
  have h2 := prepare_payload_spec (J := Unit)
    (fun t => if t = "1" then some () else none) [] () "plain"
  exact ⟨h.2.2.1 () (by decide), h2.2.2.2.2 (by decide)⟩

/-! ## C1 — Docker Compose naming -/

/-- One compression round keeps the eight working variables. -/
theorem shaRound_length (st : List Nat) (wk : Nat × Nat) :
    (shaRound st wk).length = 8 := rfl

/-- The round fold keeps the eight working variables. -/
theorem foldl_shaRound_length (l : List (Nat × Nat)) (h : List Nat)
    (hh : h.length = 8) : (l.foldl shaRound h).length = 8 := by
  induction l generalizing h with
  | nil => simpa using hh
  | cons x xs ih => exact ih (shaRound h x) (shaRound_length h x)

/-- Block compression keeps the eight state words. -/
theorem shaCompress_length (h block : List Nat) (hh : h.length = 8) :
    (shaCompress h block).length = 8 := by
  unfold shaCompress
  rw [List.length_map, List.length_zip, hh,
    foldl_shaRound_length _ _ hh]
  rfl

/-- The block fold keeps the eight state words. -/
theorem foldl_shaCompress_length (blocks : List (List Nat)) (h : List Nat)
    (hh : h.length = 8) : (blocks.foldl shaCompress h).length = 8 := by
  induction blocks generalizing h with
  | nil => simpa using hh
  | cons b bs ih => exact ih (shaCompress h b) (shaCompress_length h b hh)

/-- Serialising words to four bytes each quadruples the length. -/
theorem words_flatMap_length (g : Nat → Nat → Nat) (l : List Nat) :
    (l.flatMap (fun wd => (List.range 4).map (g wd))).length = 4 * l.length := by
  induction l with
  | nil => simp
  | cons a l ih => simp_all; omega

/-- A SHA-256 digest always has 32 bytes. -/
theorem sha256_length (msg : List Nat) : (sha256 msg).length = 32 := by
  unfold sha256
  rw [words_flatMap_length (fun wd i => (wd >>> ((3 - i) * 8)) % 256),
    foldl_shaCompress_length (chunks64 (shaPad msg)) shaH0 rfl]

/-- Every SHA-256 digest byte is below 256 (each is reduced `% 256`). -/
theorem sha256_bytes_lt (msg : List Nat) : ∀ b ∈ sha256 msg, b < 256 := by
  unfold sha256
  intro b hb
  rw [List.mem_flatMap] at hb
  obtain ⟨wd, _, hmem⟩ := hb
  rw [List.mem_map] at hmem
  obtain ⟨i, _, rfl⟩ := hmem
  exact Nat.mod_lt _ (by omega)

/-- Hex rendering doubles the length. -/
theorem bytesToHex_length (bs : List Nat) : (bytesToHex bs).length = 2 * bs.length := by
  unfold bytesToHex
  rw [List.length_flatMap]
  induction bs with
  | nil => simp
  | cons b bs ih => simp_all; omega

/-- `hexDigit` of a value below 16 is a lowercase hex digit. -/
theorem hexDigit_isHex : ∀ n < 16, isHexDigitChar (hexDigit n) = true := by
  decide

/-- Every character of the hex rendering of genuine bytes is a lowercase
hex digit. -/
theorem bytesToHex_chars (bs : List Nat) (hb : ∀ b ∈ bs, b < 256) :
    ∀ c ∈ bytesToHex bs, isHexDigitChar c = true := by
  intro c hc
  unfold bytesToHex at hc
  rw [List.mem_flatMap] at hc
  obtain ⟨b, hbm, hcm⟩ := hc
  have hblt : b < 256 := hb b hbm
  simp only [List.mem_cons, List.mem_singleton, List.not_mem_nil, or_false] at hcm
  rcases hcm with rfl | rfl
  · exact hexDigit_isHex (b / 16) (by omega)
  · exact hexDigit_isHex (b % 16) (Nat.mod_lt _ (by omega))

/-- `_hash_name` always produces exactly 12 characters. -/
theorem hashName_length (s : String) : (hashName s).length = 12 := by
  unfold hashName
  show (String.mk _).length = 12
  rw [String.length]
  simp only [List.length_take, bytesToHex_length, sha256_length]
  decide

/-- Counterexample to C1 as stated: for the identifier `task1_0`,
`create_docker_compose_file` in `src/src/utils/sandbox.py` names the
volume `postgres_data_container_<hash>`, not `postgres_data_<hash>` (and
likewise the network), so the `postgres_data_<hash>` naming does not hold
uniformly across the sandbox implementations. -/
theorem utils_compose_naming_counterexample :
    (utilsComposeNames "task1_0").volume ≠ "postgres_data_" ++ hashName "task1_0" ∧
    (utilsComposeNames "task1_0").network ≠ "webgen_network_" ++ hashName "task1_0" ∧
    (utilsComposeNames "task1_0").volume =
      "postgres_data_container_" ++ hashName "task1_0" ∧
    (utilsComposeNames "task1_0").network =
      "webgen_network_container_" ++ hashName "task1_0" := by
  refine ⟨?_, ?_, ?_, ?_⟩
  · intro h
    have hlen := congrArg String.length h
    simp only [utilsComposeNames, String.length_append, hashName_length] at hlen
    have hcl : ("container_").length = 10 := rfl
    omega
  · intro h
    have hlen := congrArg String.length h
    simp only [utilsComposeNames, String.length_append, hashName_length] at hlen
    have hcl : ("container_").length = 10 := rfl
    omega
  · simp only [utilsComposeNames, String.append_assoc]
    rfl
  · simp only [utilsComposeNames, String.append_assoc]
    rfl

/-- Claim C1 (amended): both implementations name the container
`container_<hash>` with `<hash>` the first 12 lowercase hex characters of
the SHA-256 of the identifier (so names are deterministic in the
identifier); `agent_utils/sandbox.py` names volume and network
`postgres_data_<hash>` / `webgen_network_<hash>`, while `utils/sandbox.py`
interpolates the container name, producing
`postgres_data_container_<hash>` / `webgen_network_container_<hash>`. -/
theorem compose_naming_spec (readableName : String) :
    agentUtilsComposeNames readableName =
      { container := "container_" ++ hashName readableName
        volume := "postgres_data_" ++ hashName readableName
        network := "webgen_network_" ++ hashName readableName } ∧
    utilsComposeNames readableName =
      { container := "container_" ++ hashName readableName
        volume := "postgres_data_container_" ++ hashName readableName
        network := "webgen_network_container_" ++ hashName readableName } ∧
    (hashName readableName).length = 12 ∧
    (∀ c ∈ (hashName readableName).data, isHexDigitChar c = true) ∧
    (∀ other : String, other = readableName →
      utilsComposeNames other = utilsComposeNames readableName ∧
      agentUtilsComposeNames other = agentUtilsComposeNames readableName) := by
  refine ⟨rfl, ?_, hashName_length readableName, ?_, ?_⟩
  · simp only [utilsComposeNames, String.append_assoc]
    rfl
  · intro c hc
    unfold hashName at hc
    have hc' : c ∈ bytesToHex (sha256 (utf8Encode readableName)) :=
      List.mem_of_mem_take hc
    exact bytesToHex_chars _ (sha256_bytes_lt _) c hc'
  · rintro other rfl
    exact ⟨rfl, rfl⟩

set_option maxRecDepth 100000 in
/-- Witness for C1's amended statement at the identifier `task1_0`,
with the hash value evaluated concretely. -/
theorem compose_naming_spec_witness :
    agentUtilsComposeNames "task1_0" =
      { container := "container_d6683b7e9a99"
        volume := "postgres_data_d6683b7e9a99"
        network := "webgen_network_d6683b7e9a99" } ∧
    (hashName "task1_0").length = 12 := by
  have h := compose_naming_spec "task1_0"
  have hv : hashName "task1_0" = "d6683b7e9a99" := by decide
  constructor
  · rw [h.1, hv]
    rfl
  · exact h.2.2.1

/-! ## C3 — edit tool -/

/-- Counterexample to C3 as stated: for a CRLF file, the successful edit
writes the CRLF-to-LF-normalised content with the replacement applied —
not the original content with the replacement applied. -/
theorem edit_execute_crlf_counterexample :
    (editExecute (fun q => if q = "/w/f.txt" then some "a\r\nb" else none)
        "/w/f.txt" "a" "x" 1).2 "/w/f.txt" = some "x\nb" ∧
    pyReplaceS "a\r\nb" "a" "x" = "x\r\nb" ∧
    some "x\nb" ≠ some (pyReplaceS "a\r\nb" "a" "x") := by
  refine ⟨?_, by decide, by decide⟩
  decide

/-- Claim C3 (amended): for an existing file and a non-empty `old_string`,
with occurrences counted on the CRLF-to-LF-normalised content and the
checks applied in source order — zero occurrences give
`edit_no_occurrence_found`, a count differing from
`expected_replacements` gives `edit_expected_occurrence_mismatch`,
`old_string == new_string` gives `edit_no_change`, each leaving the file
system unchanged; otherwise the call succeeds and writes the normalised
content with every occurrence of `old_string` replaced by `new_string`. -/
theorem edit_execute_spec (fs : String → Option String)
    (path oldString newString raw : String) (expected : Nat)
    (hex : fs path = some raw) (hold : oldString ≠ "") :
    (pyCountS (pyReplaceS raw "\r\n" "\n") oldString = 0 →
      (editExecute fs path oldString newString expected).1 =
        .failure "edit_no_occurrence_found" ∧
      (editExecute fs path oldString newString expected).2 = fs) ∧
    (pyCountS (pyReplaceS raw "\r\n" "\n") oldString ≠ 0 →
      pyCountS (pyReplaceS raw "\r\n" "\n") oldString ≠ expected →
      (editExecute fs path oldString newString expected).1 =
        .failure "edit_expected_occurrence_mismatch" ∧
      (editExecute fs path oldString newString expected).2 = fs) ∧
    (pyCountS (pyReplaceS raw "\r\n" "\n") oldString ≠ 0 →
      pyCountS (pyReplaceS raw "\r\n" "\n") oldString = expected →
      oldString = newString →
      (editExecute fs path oldString newString expected).1 =
        .failure "edit_no_change" ∧
      (editExecute fs path oldString newString expected).2 = fs) ∧
    (pyCountS (pyReplaceS raw "\r\n" "\n") oldString ≠ 0 →
      pyCountS (pyReplaceS raw "\r\n" "\n") oldString = expected →
      oldString ≠ newString →
      (editExecute fs path oldString newString expected).1 =
        .success (pyReplaceS (pyReplaceS raw "\r\n" "\n") oldString newString) ∧
      (editExecute fs path oldString newString expected).2 path =
        some (pyReplaceS (pyReplaceS raw "\r\n" "\n") oldString newString) ∧
      ∀ q, q ≠ path →
        (editExecute fs path oldString newString expected).2 q = fs q) := by
  set normalized := pyReplaceS raw "\r\n" "\n" with hnormdef
  set occ := pyCountS normalized oldString with hoccdef
  have hsome : (fs path).isSome = true := by rw [hex]; rfl
  have hgetD : (fs path).getD "" = raw := by rw [hex]; rfl
  have hdec : editDecide (fs path).isSome ((fs path).getD "") oldString newString
      expected = editDecide true raw oldString newString expected := by
    rw [hsome, hgetD]
  have hbase : editDecide true raw oldString newString expected =
      (if occ = 0 then .failure "edit_no_occurrence_found"
       else if occ ≠ expected then .failure "edit_expected_occurrence_mismatch"
       else if oldString = newString then .failure "edit_no_change"
       else .success (applyReplacement normalized oldString newString)) := by
    unfold editDecide
    rw [if_neg (by simp [hold])]
    rw [if_neg (by simp [hold])]
    rw [if_neg (by simp [hold])]
    rfl
  refine ⟨?_, ?_, ?_, ?_⟩
  · intro h0
    constructor
    · show (editExecute fs path oldString newString expected).1 =
        .failure "edit_no_occurrence_found"
      unfold editExecute
      rw [hdec, hbase, if_pos h0]
    · show (editExecute fs path oldString newString expected).2 = fs
      unfold editExecute
      rw [hdec, hbase, if_pos h0]
  · intro h0 hne
    have heq : editDecide true raw oldString newString expected =
        .failure "edit_expected_occurrence_mismatch" := by
      rw [hbase, if_neg h0, if_pos hne]
    constructor
    · show (editExecute fs path oldString newString expected).1 = _
      unfold editExecute
      rw [hdec, heq]
    · show (editExecute fs path oldString newString expected).2 = fs
      unfold editExecute
      rw [hdec, heq]
  · intro h0 heqc hsame
    have heq : editDecide true raw oldString newString expected =
        .failure "edit_no_change" := by
      rw [hbase, if_neg h0, if_neg (by simp [heqc]), if_pos hsame]
    constructor
    · show (editExecute fs path oldString newString expected).1 = _
      unfold editExecute
      rw [hdec, heq]
    · show (editExecute fs path oldString newString expected).2 = fs
      unfold editExecute
      rw [hdec, heq]
  · intro h0 heqc hdiff
    have happ : applyReplacement normalized oldString newString =
        pyReplaceS normalized oldString newString := by
      unfold applyReplacement
      rw [if_neg hold]
    have heq : editDecide true raw oldString newString expected =
        .success (pyReplaceS normalized oldString newString) := by
      rw [hbase, if_neg h0, if_neg (by simp [heqc]), if_neg hdiff, happ]
    refine ⟨?_, ?_, ?_⟩
    · show (editExecute fs path oldString newString expected).1 = _
      unfold editExecute
      rw [hdec, heq]
    · show (editExecute fs path oldString newString expected).2 path = _
      unfold editExecute
      rw [hdec, heq]
      simp
    · intro q hq
      show (editExecute fs path oldString newString expected).2 q = fs q
      unfold editExecute
      rw [hdec, heq]
      simp [hq]

/-- Witness for C3's amended statement: a unique occurrence is replaced;
a doubled occurrence with `expected_replacements = 1` is rejected with a
mismatch and the file untouched. -/
theorem edit_execute_spec_witness :
    (editExecute (fun q => if q = "/w/a.txt" then some "hello old world" else none)
        "/w/a.txt" "old" "new" 1).1 = .success "hello new world" ∧
    (editExecute (fun q => if q = "/w/a.txt" then some "old old" else none)
        "/w/a.txt" "old" "new" 1).1 =
      .failure "edit_expected_occurrence_mismatch" ∧
    (editExecute (fun q => if q = "/w/a.txt" then some "old old" else none)
        "/w/a.txt" "old" "new" 1).2 =
      (fun q => if q = "/w/a.txt" then some "old old" else none) := by
  have h1 := edit_execute_spec
    (fun q => if q = "/w/a.txt" then some "hello old world" else none)
    "/w/a.txt" "old" "new" "hello old world" 1 (by decide) (by decide)
  have h2 := edit_execute_spec
    (fun q => if q = "/w/a.txt" then some "old old" else none)
    "/w/a.txt" "old" "new" "old old" 1 (by decide) (by decide)
  refine ⟨?_, ?_, ?_⟩
  · have := (h1.2.2.2 (by decide) (by decide) (by decide)).1
    rw [this]
    decide
  · exact (h2.2.1 (by decide) (by decide)).1
  · exact (h2.2.1 (by decide) (by decide)).2

/-! ## C7 — grep result capping and the truncation banner -/

/-- The collection loop never exceeds `maxResults` matches. -/
theorem grepGo_length_le (maxResults : Nat) (matchLine : String → Bool)
    (files : List (String × List String)) (st : GrepState)
    (hst : st.found.length ≤ maxResults) :
    (grepGo maxResults matchLine files st).found.length ≤ maxResults := by
  induction files generalizing st with
  | nil => simpa [grepGo] using hst
  | cons f rest ih =>
    unfold grepGo
    by_cases htop : st.found.length ≥ maxResults
    · simpa [htop] using hst
    · rw [if_neg htop]
      simp only
      by_cases hrem : maxResults - st.found.length = 0
      · rw [if_pos hrem]
        simpa using hst
      · rw [if_neg hrem]
        by_cases hbig : (fileMatches matchLine f.1 f.2).length >
            maxResults - st.found.length
        · rw [if_pos hbig]
          simp only [List.length_append, List.length_take]
          omega
        · rw [if_neg hbig]
          apply ih
          simp only [List.length_append]
          omega

/-- When more matches remain than slots, the loop fills exactly
`maxResults` slots, reports truncation, and its banner total counts only
the scanned files (never more than the true total, never fewer than the
returned matches). -/
theorem grepGo_overflow (maxResults : Nat) (matchLine : String → Bool)
    (files : List (String × List String)) (st : GrepState)
    (hst : st.found.length ≤ maxResults)
    (htf : st.found.length ≤ st.totalFound)
    (hover : st.found.length +
      (files.map (fun f => (fileMatches matchLine f.1 f.2).length)).sum >
      maxResults) :
    (grepGo maxResults matchLine files st).found.length = maxResults ∧
    (grepGo maxResults matchLine files st).truncated = true ∧
    (grepGo maxResults matchLine files st).found.length ≤
      (grepGo maxResults matchLine files st).totalFound ∧
    (grepGo maxResults matchLine files st).totalFound ≤
      st.totalFound +
        (files.map (fun f => (fileMatches matchLine f.1 f.2).length)).sum := by
  induction files generalizing st with
  | nil =>
    simp only [List.map_nil, List.sum_nil, Nat.add_zero] at hover
    omega
  | cons f rest ih =>
    unfold grepGo
    by_cases htop : st.found.length ≥ maxResults
    · simp only [if_pos htop]
      refine ⟨?_, ?_, ?_, ?_⟩ <;> first | (simp; omega) | simp | omega
    · rw [if_neg htop]
      simp only
      by_cases hrem : maxResults - st.found.length = 0
      · omega
      · rw [if_neg hrem]
        by_cases hbig : (fileMatches matchLine f.1 f.2).length >
            maxResults - st.found.length
        · rw [if_pos hbig]
          refine ⟨?_, rfl, ?_, ?_⟩
          · simp only [List.length_append, List.length_take]
            omega
          · simp only [List.length_append, List.length_take]
            omega
          · simp only [List.map_cons, List.sum_cons]
            omega
        · rw [if_neg hbig]
          have hrest := ih
            { found := st.found ++ fileMatches matchLine f.1 f.2,
              totalFound := st.totalFound + (fileMatches matchLine f.1 f.2).length,
              truncated := st.truncated }
            (by simp only [List.length_append]; omega)
            (by simp only [List.length_append]; omega)
            (by
              simp only [List.length_append]
              simp only [List.map_cons, List.sum_cons] at hover
              omega)
          refine ⟨hrest.1, hrest.2.1, hrest.2.2.1, ?_⟩
          refine le_trans hrest.2.2.2 ?_
          simp only [List.map_cons, List.sum_cons]
          omega

/-- Counterexample to C7 as stated: three files of 15 matching lines each
under the default cap of 20 — the loop stops inside the second file, so
the banner reports `30+`, not the true total of 45 matches. -/
theorem grep_banner_counterexample :
    (grepExecute (fun l => pyInStr "x".data l.data)
        [("a", List.replicate 15 "x"), ("b", List.replicate 15 "x"),
         ("c", List.replicate 15 "x")] 20).totalFound = 30 ∧
    trueTotalMatches (fun l => pyInStr "x".data l.data)
        [("a", List.replicate 15 "x"), ("b", List.replicate 15 "x"),
         ("c", List.replicate 15 "x")] = 45 ∧
    (30 : Nat) ≠ 45 ∧
    (grepExecute (fun l => pyInStr "x".data l.data)
        [("a", List.replicate 15 "x"), ("b", List.replicate 15 "x"),
         ("c", List.replicate 15 "x")] 20).found.length = 20 := by
  refine ⟨by decide, by decide, by decide, by decide⟩

/-- Claim C7 (amended): a `maxResults` outside 1–100 fails validation;
without an override at most 20 matches are returned; when more matches
exist than the cap, exactly `maxResults` matches are returned with the
truncation banner naming the number of matches found in the files scanned
before stopping — at least the number returned and at most (but not
necessarily equal to) the true total. -/
theorem grep_execute_spec (matchLine : String → Bool)
    (files : List (String × List String)) (maxResults : Nat)
    (hover : trueTotalMatches matchLine files > maxResults) :
    (∀ v : Int, v < 1 ∨ v > 100 → (validateMaxResults (some v)).isSome = true) ∧
    (grepExecute matchLine files 20).found.length ≤ 20 ∧
    (grepExecute matchLine files maxResults).found.length = maxResults ∧
    (grepExecute matchLine files maxResults).truncated = true ∧
    (grepExecute matchLine files maxResults).found.length ≤
      (grepExecute matchLine files maxResults).totalFound ∧
    (grepExecute matchLine files maxResults).totalFound ≤
      trueTotalMatches matchLine files := by
  have hmain := grepGo_overflow maxResults matchLine files ⟨[], 0, false⟩
    (by simp) (by simp) (by simpa [trueTotalMatches] using hover)
  refine ⟨?_, ?_, hmain.1, hmain.2.1, hmain.2.2.1, ?_⟩
  · intro v hv
    show (if v < 1 ∨ v > 100 then
      some ("maxResults must be an integer between 1 and 100, got: " ++ toString v)
      else none).isSome = true
    rw [if_pos hv]
    rfl
  · exact grepGo_length_le 20 matchLine files ⟨[], 0, false⟩ (by simp)
  · have := hmain.2.2.2
    simpa [trueTotalMatches] using this

/-- Witness for C7's amended statement on the three 15-match files. -/
theorem grep_execute_spec_witness :
    (grepExecute (fun l => pyInStr "y".data l.data)
        [("a", List.replicate 15 "y"), ("b", List.replicate 15 "y"),
         ("c", List.replicate 15 "y")] 20).found.length = 20 ∧
    (validateMaxResults (some 0)).isSome = true ∧
    (validateMaxResults (some 101)).isSome = true := by
  have h := grep_execute_spec (fun l => pyInStr "y".data l.data)
    [("a", List.replicate 15 "y"), ("b", List.replicate 15 "y"),
     ("c", List.replicate 15 "y")] 20 (by decide)
  exact ⟨h.2.2.1, h.1 0 (by decide), h.1 101 (by decide)⟩

/-! ## C5 — database watcher checkpointing -/

/-- With distinct keys an association list stores one value per key. -/
theorem assoc_nodup_unique (ckpt : List (String × Nat)) (k : String) (v w : Nat)
    (hnd : (ckpt.map Prod.fst).Nodup) (h1 : (k, v) ∈ ckpt) (h2 : (k, w) ∈ ckpt) :
    v = w := by
  induction ckpt with
  | nil => simp at h1
  | cons x rest ih =>
    simp only [List.map_cons, List.nodup_cons] at hnd
    rcases List.mem_cons.mp h1 with h1e | h1r
    · rcases List.mem_cons.mp h2 with h2e | h2r
      · rw [← h1e] at h2e
        injection h2e with h1x h2x
        exact h2x.symm
      · exfalso
        apply hnd.1
        rw [← h1e]
        exact List.mem_map.mpr ⟨(k, w), h2r, rfl⟩
    · rcases List.mem_cons.mp h2 with h2e | h2r
      · exfalso
        apply hnd.1
        rw [← h2e]
        exact List.mem_map.mpr ⟨(k, v), h1r, rfl⟩
      · exact ih hnd.2 h1r h2r

/-- With distinct keys, `find?` locates exactly the stored pair. -/
theorem find_eq_of_mem_nodup (ckpt : List (String × Nat)) (n : String) (v : Nat)
    (hnd : (ckpt.map Prod.fst).Nodup) (hm : (n, v) ∈ ckpt) :
    ckpt.find? (fun kv => kv.1 == n) = some (n, v) := by
  induction ckpt with
  | nil => simp at hm
  | cons kv rest ih =>
    simp only [List.map_cons, List.nodup_cons] at hnd
    rcases List.mem_cons.mp hm with rfl | hmr
    · exact List.find?_cons_of_pos _ (by simp)
    · have hkne : kv.1 ≠ n := by
        intro hk
        exact hnd.1 (hk ▸ (List.mem_map.mpr ⟨(n, v), hmr, rfl⟩))
      rw [List.find?_cons_of_neg _ (by simpa using hkne)]
      exact ih hnd.2 hmr

/-- With distinct keys, `ckptGet` returns the stored offset. -/
theorem ckptGet_of_mem (ckpt : List (String × Nat)) (n : String) (v : Nat)
    (hnd : (ckpt.map Prod.fst).Nodup) (hm : (n, v) ∈ ckpt) :
    ckptGet ckpt n = v := by
  unfold ckptGet
  rw [find_eq_of_mem_nodup ckpt n v hnd hm]

/-- Re-storing the value a key already holds leaves the map unchanged. -/
theorem ckptSet_self (ckpt : List (String × Nat)) (n : String) (v : Nat)
    (hnd : (ckpt.map Prod.fst).Nodup) (hm : (n, v) ∈ ckpt) :
    ckptSet ckpt n v = ckpt := by
  unfold ckptSet
  rw [if_pos (List.any_eq_true.mpr ⟨(n, v), hm, by simp⟩)]
  nth_rewrite 2 [show ckpt = ckpt.map id from (List.map_id ckpt).symm]
  apply List.map_congr_left
  rintro ⟨k, w⟩ hkv
  by_cases hk : k = n
  · subst hk
    have hvw : v = w := assoc_nodup_unique ckpt k v w hnd hm hkv
    simp [hvw]
  · simp [hk]

/-- Lookup at the stored key after the in-place update branch. -/
theorem ckptGet_map_set_same (ckpt : List (String × Nat)) (m : String) (v : Nat)
    (hany : ckpt.any (fun kv => kv.1 == m) = true) :
    ckptGet (ckpt.map (fun kv => if kv.1 == m then (kv.1, v) else kv)) m = v := by
  induction ckpt with
  | nil => simp at hany
  | cons kv rest ih =>
    rw [List.map_cons]
    by_cases hk : kv.1 = m
    · rw [if_pos (by simpa using hk)]
      unfold ckptGet
      rw [List.find?_cons_of_pos _ (by simpa using hk)]
    · have hrest : rest.any (fun kv => kv.1 == m) = true := by
        rw [List.any_cons] at hany
        rcases Bool.or_eq_true _ _ |>.mp hany with h1 | h1
        · exact absurd (by simpa using h1) hk
        · exact h1
      rw [if_neg (by simpa using hk)]
      unfold ckptGet
      rw [List.find?_cons_of_neg _ (by simpa using hk)]
      exact ih hrest

/-- Lookup at another key after the in-place update branch. -/
theorem ckptGet_map_set_ne (ckpt : List (String × Nat)) (m n : String) (v : Nat)
    (hne : n ≠ m) :
    ckptGet (ckpt.map (fun kv => if kv.1 == m then (kv.1, v) else kv)) n =
      ckptGet ckpt n := by
  induction ckpt with
  | nil => simp
  | cons kv rest ih =>
    rw [List.map_cons]
    by_cases hk : kv.1 = n
    · have hkm : ¬(kv.1 = m) := by rw [hk]; exact hne
      rw [if_neg (by simpa using hkm)]
      unfold ckptGet
      rw [List.find?_cons_of_pos _ (by simpa using hk),
        List.find?_cons_of_pos _ (by simpa using hk)]
    · by_cases hkm : kv.1 = m
      · rw [if_pos (by simpa using hkm)]
        unfold ckptGet
        rw [List.find?_cons_of_neg _ (by simp [hkm]; simpa using fun h => hne h.symm),
          List.find?_cons_of_neg _ (by simpa using hk)]
        exact ih
      · rw [if_neg (by simpa using hkm)]
        unfold ckptGet
        rw [List.find?_cons_of_neg _ (by simpa using hk),
          List.find?_cons_of_neg _ (by simpa using hk)]
        exact ih

/-- Storing `v` at `m` makes `ckptGet` return `v` at `m`. -/
theorem ckptGet_set_same (ckpt : List (String × Nat)) (m : String) (v : Nat) :
    ckptGet (ckptSet ckpt m v) m = v := by
  unfold ckptSet
  by_cases hany : ckpt.any (fun kv => kv.1 == m) = true
  · rw [if_pos hany]
    exact ckptGet_map_set_same ckpt m v hany
  · rw [if_neg hany]
    have hnone : ckpt.find? (fun kv => kv.1 == m) = none := by
      rw [List.find?_eq_none]
      intro kv hkv
      simp only [beq_iff_eq]
      intro hk
      exact hany (List.any_eq_true.mpr ⟨kv, hkv, by simpa using hk⟩)
    unfold ckptGet
    rw [List.find?_append, hnone]
    simp

/-- Storing at `m` does not change lookups at other keys. -/
theorem ckptGet_set_ne (ckpt : List (String × Nat)) (m n : String) (v : Nat)
    (hne : n ≠ m) : ckptGet (ckptSet ckpt m v) n = ckptGet ckpt n := by
  unfold ckptSet
  by_cases hany : ckpt.any (fun kv => kv.1 == m) = true
  · rw [if_pos hany]
    exact ckptGet_map_set_ne ckpt m n v hne
  · rw [if_neg hany]
    unfold ckptGet
    rw [List.find?_append]
    have h1 : List.find? (fun kv => kv.1 == n) [(m, v)] = none := by
      rw [List.find?_eq_none]
      intro kv hkv
      simp only [List.mem_singleton] at hkv
      subst hkv
      simpa using hne.symm
    rw [h1]
    cases ckpt.find? (fun kv => kv.1 == n) <;> simp

/-- Filtering by a predicate that holds on every pair with key `n` does not
change lookups at `n`. -/
theorem ckptGet_filter (ckpt : List (String × Nat)) (n : String)
    (p : String × Nat → Bool) (hp : ∀ kv ∈ ckpt, kv.1 = n → p kv = true) :
    ckptGet (ckpt.filter p) n = ckptGet ckpt n := by
  unfold ckptGet
  induction ckpt with
  | nil => simp
  | cons kv rest ih =>
    have ihr := ih (fun kv h hkn => hp kv (List.mem_cons_of_mem _ h) hkn)
    by_cases hk : kv.1 = n
    · rw [List.filter_cons, if_pos (hp kv (List.mem_cons_self ..) hk),
        List.find?_cons_of_pos _ (by simpa using hk),
        List.find?_cons_of_pos _ (by simpa using hk)]
    · rw [List.filter_cons]
      by_cases hpk : p kv = true
      · rw [if_pos hpk, List.find?_cons_of_neg _ (by simpa using hk),
          List.find?_cons_of_neg _ (by simpa using hk)]
        exact ihr
      · rw [if_neg hpk, List.find?_cons_of_neg _ (by simpa using hk)]
        exact ihr

/-- Appending rows to a file whose layout was already determined keeps the
layout and appends to the data rows. -/
theorem parseLayout_append (rows ns data : List (List String)) (idxTs idxMsg : Nat)
    (h : parseLayout rows = some (.layout data idxTs idxMsg)) :
    parseLayout (rows ++ ns) = some (.layout (data ++ ns) idxTs idxMsg) := by
  cases rows with
  | nil => simp [parseLayout] at h
  | cons firstRow restRows =>
    rw [List.cons_append]
    simp only [parseLayout] at h ⊢
    rw [Option.bind_eq_some] at h
    obtain ⟨cell, hh, h⟩ := h
    rw [Option.bind_eq_some] at h
    obtain ⟨isLog, hl, h⟩ := h
    cases isLog with
    | true =>
      rw [if_pos rfl] at h
      simp only [Option.some.injEq, ReadLayout.layout.injEq] at h
      obtain ⟨hd, ht, hm⟩ := h
      subst hd; subst ht; subst hm
      simp [hh, hl]
    | false =>
      rw [if_neg (by simp)] at h
      rw [Option.bind_eq_some] at h
      obtain ⟨i1, hts, h⟩ := h
      rw [Option.bind_eq_some] at h
      obtain ⟨i2, hmg, h⟩ := h
      simp only [Option.some.injEq, ReadLayout.layout.injEq] at h
      obtain ⟨hd, ht, hm⟩ := h
      subst hd; subst ht; subst hm
      simp [hh, hl, hts, hmg]

/-- Reading appended well-formed SQL rows from the old end of the data
yields exactly one kept entry per appended row. -/
theorem collect_from_end (idxTs idxMsg : Nat) (data ns : List (List String))
    (h4 : ∀ row ∈ ns, ∃ ts msg, row.get? idxTs = some ts ∧
      row.get? idxMsg = some msg ∧ sqlRegexSearch msg = true) :
    (collectEntries idxTs idxMsg data.length (data ++ ns)).length = ns.length ∧
    (filterSqlEntries (collectEntries idxTs idxMsg data.length (data ++ ns))).length =
      ns.length := by
  unfold collectEntries
  rw [List.drop_left]
  revert h4
  induction ns with
  | nil =>
    intro _
    simp [filterSqlEntries]
  | cons row rest ih =>
    intro h4
    obtain ⟨ts, msg, h1, h2, h3⟩ := h4 row (List.mem_cons_self ..)
    have ihr := ih (fun r hr => h4 r (List.mem_cons_of_mem _ hr))
    rw [List.filterMap_cons]
    simp only [h1, h2]
    constructor
    · simpa using ihr.1
    · simp only [filterSqlEntries, List.filter_cons, h3, if_pos]
      simpa [filterSqlEntries] using ihr.2

/-- Claim C5 (as stated): with the checkpoint current for the most recently
modified log file, `get_new_entries` returns no entries and leaves the
checkpoint map unchanged (so a second call does the same); appending `N`
well-formed SQL-bearing rows to that file makes a single call return
exactly `N` entries and advance that file's checkpoint by `N`; and a
checkpoint never decreases for any existing file on any call. -/
theorem db_watcher_spec (files : List LogFile) (ckpt : List (String × Nat))
    (latest : LogFile) (data : List (List String)) (idxTs idxMsg : Nat)
    (hlast : files.getLast? = some latest)
    (hnd : (ckpt.map Prod.fst).Nodup)
    (hkeys : ∀ kv ∈ ckpt, files.any (fun f => f.name == kv.1) = true)
    (hmem : (latest.name, data.length) ∈ ckpt)
    (hlayout : parseLayout latest.rows = some (.layout data idxTs idxMsg)) :
    getNewEntries files ckpt = some ([], ckpt) ∧
    (∀ ns : List (List String),
      (∀ row ∈ ns, ∃ ts msg, row.get? idxTs = some ts ∧
        row.get? idxMsg = some msg ∧ sqlRegexSearch msg = true) →
      ∃ es ckpt2,
        getNewEntries (files.dropLast ++ [⟨latest.name, latest.rows ++ ns⟩]) ckpt =
          some (es, ckpt2) ∧
        es.length = ns.length ∧
        ckptGet ckpt latest.name = data.length ∧
        ckptGet ckpt2 latest.name = data.length + ns.length) ∧
    (∀ (gfiles : List LogFile) (gckpt : List (String × Nat)) es gckpt2,
      getNewEntries gfiles gckpt = some (es, gckpt2) →
      ∀ n, gfiles.any (fun f => f.name == n) = true →
        ckptGet gckpt n ≤ ckptGet gckpt2 n) := by
  have hstart : ckptGet ckpt latest.name = data.length :=
    ckptGet_of_mem _ _ _ hnd hmem
  refine ⟨?_, ?_, ?_⟩
  · have hread : readFrom latest.rows data.length = some [] := by
      simp only [readFrom, hlayout]
      unfold collectEntries
      rw [List.drop_length]
      rfl
    simp only [getNewEntries, hlast, hstart, hread, List.length_nil, Nat.add_zero]
    rw [ckptSet_self ckpt latest.name data.length hnd hmem]
    rw [List.filter_eq_self.mpr ?pall]
    case pall =>
      intro kv hkv
      exact hkeys kv hkv
    rfl
  · intro ns h4
    have hlast2 : (files.dropLast ++ [(⟨latest.name, latest.rows ++ ns⟩ : LogFile)]).getLast? =
        some ⟨latest.name, latest.rows ++ ns⟩ := by
      rw [List.getLast?_concat]
    have hlay2 : parseLayout (latest.rows ++ ns) =
        some (.layout (data ++ ns) idxTs idxMsg) :=
      parseLayout_append _ _ _ _ _ hlayout
    have hcoll := collect_from_end idxTs idxMsg data ns h4
    have hread2 : readFrom (latest.rows ++ ns) data.length =
        some (collectEntries idxTs idxMsg data.length (data ++ ns)) := by
      simp only [readFrom, hlay2]
    refine ⟨filterSqlEntries (collectEntries idxTs idxMsg data.length (data ++ ns)),
      (ckptSet ckpt latest.name
          (data.length + (collectEntries idxTs idxMsg data.length (data ++ ns)).length)).filter
        (fun kv => (files.dropLast ++ [(⟨latest.name, latest.rows ++ ns⟩ : LogFile)]).any
          (fun f => f.name == kv.1)),
      ?_, hcoll.2, hstart, ?_⟩
    · simp only [getNewEntries, hlast2, hstart, hread2]
    · have hp : ∀ kv ∈ ckptSet ckpt latest.name
          (data.length + (collectEntries idxTs idxMsg data.length (data ++ ns)).length),
          kv.1 = latest.name →
          ((files.dropLast ++ [(⟨latest.name, latest.rows ++ ns⟩ : LogFile)]).any
            (fun f => f.name == kv.1)) = true := by
        intro kv _ hkn
        rw [hkn]
        refine List.any_eq_true.mpr ⟨⟨latest.name, latest.rows ++ ns⟩, ?_, by simp⟩
        exact List.mem_append_right _ (List.mem_singleton_self _)
      rw [ckptGet_filter _ _ _ hp, ckptGet_set_same, hcoll.1]
  · intro gfiles gckpt es2 gckpt2 hsome n hn
    unfold getNewEntries at hsome
    cases hg : gfiles.getLast? with
    | none => rw [hg] at hsome; simp at hsome
    | some glatest =>
      rw [hg] at hsome
      simp only at hsome
      cases hr : readFrom glatest.rows (ckptGet gckpt glatest.name) with
      | none => rw [hr] at hsome; simp at hsome
      | some newRows =>
        rw [hr] at hsome
        simp only [Option.some.injEq, Prod.mk.injEq] at hsome
        obtain ⟨-, hc⟩ := hsome
        subst hc
        have hp : ∀ kv ∈ ckptSet gckpt glatest.name
            (ckptGet gckpt glatest.name + newRows.length),
            kv.1 = n → (gfiles.any (fun f => f.name == kv.1)) = true := by
          intro kv _ hkn
          rw [hkn]
          exact hn
        by_cases hnn : n = glatest.name
        · subst hnn
          rw [ckptGet_filter _ _ _ hp, ckptGet_set_same]
          exact Nat.le_add_right _ _
        · rw [ckptGet_filter _ _ _ hp, ckptGet_set_ne _ _ _ _ hnn]

/-- Witness for C5: a header-ful log with one drained `SELECT` row — the
idle call returns nothing and keeps the checkpoint; appending one
`INSERT`-bearing row returns one entry and advances the checkpoint from 1
to 2. -/
theorem db_watcher_spec_witness :
    getNewEntries
      [⟨"postgresql.csv", [["ts", "msg"], ["2025-01-01 10:00:00", "SELECT 1"]]⟩]
      [("postgresql.csv", 1)] = some ([], [("postgresql.csv", 1)]) ∧
    (∃ es ckpt2,
      getNewEntries
        ([(⟨"postgresql.csv",
            [["ts", "msg"], ["2025-01-01 10:00:00", "SELECT 1"]]⟩ : LogFile)].dropLast ++
          [⟨"postgresql.csv",
            [["ts", "msg"], ["2025-01-01 10:00:00", "SELECT 1"]] ++
              [["2025-01-01 10:00:05", "INSERT INTO users VALUES (1)"]]⟩])
        [("postgresql.csv", 1)] = some (es, ckpt2) ∧
      es.length = 1 ∧
      ckptGet [("postgresql.csv", 1)] "postgresql.csv" = 1 ∧
      ckptGet ckpt2 "postgresql.csv" = 1 + 1) := by
  have h := db_watcher_spec
    [⟨"postgresql.csv", [["ts", "msg"], ["2025-01-01 10:00:00", "SELECT 1"]]⟩]
    [("postgresql.csv", 1)]
    ⟨"postgresql.csv", [["ts", "msg"], ["2025-01-01 10:00:00", "SELECT 1"]]⟩
    [["2025-01-01 10:00:00", "SELECT 1"]] 0 1
    (by simp) (by decide) (by decide) (by decide) (by decide)
  refine ⟨h.1, ?_⟩
  have h2 := h.2.1 [["2025-01-01 10:00:05", "INSERT INTO users VALUES (1)"]]
    (by
      intro row hrow
      simp only [List.mem_singleton] at hrow
      subst hrow
      exact ⟨"2025-01-01 10:00:05", "INSERT INTO users VALUES (1)", rfl, rfl,
        by decide⟩)
  obtain ⟨es, ckpt2, he1, he2, he3, he4⟩ := h2
  exact ⟨es, ckpt2, he1, he2, he3, he4⟩

/-! ## C2 — history compression invariants -/

/-- Equation: grouping an empty suffix. -/
theorem groupHistory_nil : groupHistory [] = [] := by
  rw [groupHistory]

/-- Equation: a message without tool calls forms a singleton group. -/
theorem groupHistory_cons_plain (m : ChatMessage) (rest : List ChatMessage)
    (h : isAWT m = false) :
    groupHistory (m :: rest) = [m] :: groupHistory rest := by
  rw [groupHistory]
  simp [h]

/-- Equation: an assistant message with tool calls absorbs the following
run of `tool` messages. -/
theorem groupHistory_cons_awt (m : ChatMessage) (rest : List ChatMessage)
    (h : isAWT m = true) :
    groupHistory (m :: rest) =
      (m :: rest.takeWhile (fun x => x.role == "tool")) ::
        groupHistory (rest.dropWhile (fun x => x.role == "tool")) := by
  rw [groupHistory]
  simp [h]

/-- Grouping partitions the suffix: flattening restores it. -/
theorem groupHistory_flatten (l : List ChatMessage) :
    (groupHistory l).flatten = l := by
  induction l using groupHistory.induct with
  | case1 => simp [groupHistory_nil]
  | case2 m rest h ih =>
    rw [groupHistory_cons_awt m rest h]
    simp only [List.flatten_cons, ih]
    rw [List.cons_append, List.takeWhile_append_dropWhile]
  | case3 m rest h ih =>
    rw [groupHistory_cons_plain m rest (by revert h; cases isAWT m <;> simp)]
    simp [ih]

/-- An assistant message bearing tool calls has role `assistant`. -/
theorem isAWT_role (m : ChatMessage) (h : isAWT m = true) : m.role = "assistant" := by
  unfold isAWT at h
  rcases Bool.and_eq_true _ _ |>.mp h with ⟨h1, -⟩
  simpa using h1

/-- A well-formed suffix never starts with a `tool` message. -/
theorem WFHistory_head_not_tool (l : List ChatMessage) (h : WFHistory l) :
    ∀ m, l.head? = some m → m.role ≠ "tool" := by
  cases h with
  | nil => intro m hm; simp at hm
  | plain m rest hAWT hrole _ =>
    intro x hx
    simp only [List.head?_cons, Option.some.injEq] at hx
    subst hx
    exact hrole
  | group m ts rest hAWT hts hlen _ =>
    intro x hx
    simp only [List.cons_append, List.head?_cons, Option.some.injEq] at hx
    subst hx
    rw [isAWT_role m hAWT]
    decide

/-- A run of `tool` messages followed by a non-`tool` head splits exactly
at the run boundary. -/
theorem takeWhile_tool_split (ts rest : List ChatMessage)
    (hts : ∀ t ∈ ts, t.role = "tool")
    (hrest : ∀ m, rest.head? = some m → m.role ≠ "tool") :
    (ts ++ rest).takeWhile (fun x => x.role == "tool") = ts ∧
    (ts ++ rest).dropWhile (fun x => x.role == "tool") = rest := by
  induction ts with
  | nil =>
    cases rest with
    | nil => simp
    | cons r rs =>
      have hr : ¬(r.role = "tool") := hrest r rfl
      simp [List.takeWhile_cons, List.dropWhile_cons, hr]
  | cons t ts' ih =>
    have htt : t.role = "tool" := hts t (List.mem_cons_self ..)
    have ih' := ih (fun x hx => hts x (List.mem_cons_of_mem _ hx))
    simp only [List.cons_append, List.takeWhile_cons, List.dropWhile_cons, htt]
    simp [ih'.1, ih'.2]

/-- Grouping a well-formed suffix starting with a tool-call group. -/
theorem groupHistory_group (m : ChatMessage) (ts rest : List ChatMessage)
    (hAWT : isAWT m = true) (hts : ∀ t ∈ ts, t.role = "tool")
    (hwf : WFHistory rest) :
    groupHistory (m :: (ts ++ rest)) = (m :: ts) :: groupHistory rest := by
  rw [groupHistory_cons_awt m _ hAWT]
  have hsplit := takeWhile_tool_split ts rest hts (WFHistory_head_not_tool rest hwf)
  rw [hsplit.1, hsplit.2]

/-- Dropping whole groups from a well-formed suffix leaves a well-formed
flattened remainder. -/
theorem WF_drop_flatten (l : List ChatMessage) (h : WFHistory l) :
    ∀ n, WFHistory ((groupHistory l).drop n).flatten := by
  induction h with
  | nil =>
    intro n
    simp only [groupHistory_nil, List.drop_nil, List.flatten_nil]
    exact WFHistory.nil
  | plain m rest hAWT hrole hwf ih =>
    intro n
    rw [groupHistory_cons_plain m rest hAWT]
    cases n with
    | zero =>
      simp only [List.drop_zero, List.flatten_cons, groupHistory_flatten,
        List.singleton_append]
      exact WFHistory.plain m rest hAWT hrole hwf
    | succ k =>
      simp only [List.drop_succ_cons]
      exact ih k
  | group m ts rest hAWT hts hlen hwf ih =>
    intro n
    rw [groupHistory_group m ts rest hAWT hts hwf]
    cases n with
    | zero =>
      simp only [List.drop_zero, List.flatten_cons, groupHistory_flatten,
        List.cons_append]
      exact WFHistory.group m ts rest hAWT hts hlen hwf
    | succ k =>
      simp only [List.drop_succ_cons]
      exact ih k

/-- A well-formed suffix satisfies the adjacency invariant: each assistant
message with `k` tool calls is immediately followed by `k` `tool`
messages. -/
theorem WF_adjacency (l : List ChatMessage) (h : WFHistory l) : adjacencyOK l := by
  induction h with
  | nil =>
    intro a x b heq _
    exact absurd (congrArg List.length heq) (by simp; omega)
  | plain m rest hAWT hrole hwf ih =>
    intro a x b heq hx
    cases a with
    | nil =>
      simp only [List.nil_append, List.cons.injEq] at heq
      obtain ⟨rfl, rfl⟩ := heq
      exact absurd hx (by simp [hAWT])
    | cons a0 a' =>
      simp only [List.cons_append, List.cons.injEq] at heq
      exact ih a' x b heq.2 hx
  | group m ts rest hAWT hts hlen hwf ih =>
    intro a x b heq hx
    cases a with
    | nil =>
      simp only [List.nil_append, List.cons.injEq] at heq
      obtain ⟨rfl, rfl⟩ := heq
      constructor
      · rw [← hlen]
        simp only [List.length_append]
        omega
      · intro t ht
        apply hts
        rw [← hlen] at ht
        rw [List.take_left] at ht
        exact ht
    | cons a0 a' =>
      simp only [List.cons_append, List.cons.injEq] at heq
      have hsplit := heq.2
      rcases List.append_eq_append_iff.mp hsplit with ⟨u, hu1, hu2⟩ | ⟨u, hu1, hu2⟩
      · exact ih u x b hu2 hx
      · cases u with
        | nil =>
          simp only [List.nil_append] at hu2
          exact ih [] x b (by rw [hu2, List.nil_append]) hx
        | cons u0 u' =>
          have hxu : x = u0 := by
            simp only [List.cons_append, List.cons.injEq] at hu2
            exact hu2.1
          have hmem : u0 ∈ ts := by
            rw [hu1]
            simp
          have hxt : x.role = "tool" := hxu ▸ hts u0 hmem
          rw [isAWT_role x hx] at hxt
          exact absurd hxt (by decide)

/-- Prepending messages without tool calls preserves the adjacency
invariant. -/
theorem adjacency_prepend (pre post : List ChatMessage)
    (hpre : ∀ m ∈ pre, isAWT m = false) (hpost : adjacencyOK post) :
    adjacencyOK (pre ++ post) := by
  intro a x b heq hx
  rcases List.append_eq_append_iff.mp heq with ⟨u, hu1, hu2⟩ | ⟨u, hu1, hu2⟩
  · exact hpost u x b hu2 hx
  · cases u with
    | nil =>
      simp only [List.nil_append] at hu2
      exact hpost [] x b (by rw [List.nil_append]; exact hu2.symm) hx
    | cons u0 u' =>
      have hxu : x = u0 := by
        simp only [List.cons_append, List.cons.injEq] at hu2
        exact hu2.1
      have hmem : u0 ∈ pre := by
        rw [hu1]
        simp
      exact absurd hx (by rw [hxu]; simp [hpre u0 hmem])

/-- `pySliceFromNeg` is a drop. -/
theorem pySliceFromNeg_eq_drop (t : Nat) (xs : List α) :
    pySliceFromNeg t xs = xs.drop (if t = 0 then 0 else xs.length - t) := by
  unfold pySliceFromNeg
  by_cases h : t = 0
  · simp [h]
  · rw [if_neg h, if_neg h]

/-- Claim C2: whenever compression runs (history over `max_history_length`,
or forced), the first three history entries survive unchanged and the
resulting history still satisfies the tool-call adjacency invariant — the
compression boundary never falls inside an assistant/tool-response
group.  `threshold` ranges over every possible value of
`int(len(grouped_history) * compression_ratio)`. -/
theorem compress_history_spec (maxLen threshold : Nat) (force : Bool)
    (llmResult : Option String) (history : List ChatMessage)
    (hlen3 : 3 ≤ history.length)
    (hwf : WFHistory (history.drop 3))
    (h3 : ∀ m ∈ history.take 3, isAWT m = false)
    (htrig : history.length > maxLen ∨ force = true) :
    (compressHistory maxLen threshold force llmResult history).take 3 =
      history.take 3 ∧
    adjacencyOK (compressHistory maxLen threshold force llmResult history) := by
  have hshape : ∃ (n : Nat) (tail : List ChatMessage),
      compressHistory maxLen threshold force llmResult history =
        history.take 3 ++ tail ∧
      (tail = ((groupHistory (history.drop 3)).drop n).flatten ∨
        ∃ c, tail = compressedHistoryMessage c ::
          ((groupHistory (history.drop 3)).drop n).flatten) := by
    simp only [compressHistory]
    rw [if_pos htrig]
    by_cases hsmall : (groupHistory (history.drop 3)).length ≤ maxLen ∧ ¬(force = true)
    · rw [if_pos hsmall]
      refine ⟨0, history.drop 3, by rw [List.take_append_drop], Or.inl ?_⟩
      rw [List.drop_zero, groupHistory_flatten]
    · rw [if_neg hsmall]
      by_cases hthr : threshold > 0
      · simp only [if_pos hthr]
        by_cases hemp : (pySliceToNeg threshold
            (groupHistory (history.drop 3))).flatten = []
        · rw [if_pos hemp]
          exact ⟨(groupHistory (history.drop 3)).length - threshold, _, rfl,
            Or.inl (by rw [pySliceFromNeg_eq_drop, if_neg (by omega)])⟩
        · rw [if_neg hemp]
          cases llmResult with
          | some c =>
            exact ⟨(groupHistory (history.drop 3)).length - threshold, _, rfl,
              Or.inr ⟨c, by rw [pySliceFromNeg_eq_drop, if_neg (by omega)]⟩⟩
          | none =>
            exact ⟨(groupHistory (history.drop 3)).length - threshold, _, rfl,
              Or.inl (by rw [pySliceFromNeg_eq_drop, if_neg (by omega)])⟩
      · simp only [if_neg hthr]
        have hthr0 : threshold = 0 := by omega
        by_cases hemp : (groupHistory (history.drop 3)).flatten = []
        · rw [if_pos hemp]
          exact ⟨(groupHistory (history.drop 3)).length, [], by simp,
            Or.inl (by simp)⟩
        · rw [if_neg hemp]
          cases llmResult with
          | some c =>
            exact ⟨(groupHistory (history.drop 3)).length, _, rfl,
              Or.inr ⟨c, by simp⟩⟩
          | none =>
            exact ⟨0, _, rfl,
              Or.inl (by rw [pySliceFromNeg_eq_drop, if_pos hthr0])⟩
  obtain ⟨n, tail, hres, hcase⟩ := hshape
  have hwfflat : WFHistory ((groupHistory (history.drop 3)).drop n).flatten :=
    WF_drop_flatten (history.drop 3) hwf n
  have hwftail : WFHistory tail := by
    rcases hcase with rfl | ⟨c, rfl⟩
    · exact hwfflat
    · refine WFHistory.plain _ _ rfl (by simp [compressedHistoryMessage]) hwfflat
  have hadj : adjacencyOK (history.take 3 ++ tail) :=
    adjacency_prepend _ _ h3 (WF_adjacency tail hwftail)
  have htk3 : (history.take 3).length = 3 := by
    rw [List.length_take]
    omega
  constructor
  · rw [hres]
    have h5 := List.take_left (history.take 3) tail
    rw [htk3] at h5
    exact h5
  · rw [hres]
    exact hadj

/-- Witness for C2: a seven-message history (3 prefix entries, one user
turn, an assistant message with two tool calls and its two tool
responses) over a limit of 3, with a successful summarisation. -/
theorem compress_history_spec_witness :
    ((compressHistory 3 1 false (some "summary")
        [⟨"system", "ctx", 0⟩, ⟨"assistant", "ack", 0⟩, ⟨"user", "task", 0⟩,
         ⟨"user", "go", 0⟩, ⟨"assistant", "work", 2⟩, ⟨"tool", "r1", 0⟩,
         ⟨"tool", "r2", 0⟩]).take 3 =
      [⟨"system", "ctx", 0⟩, ⟨"assistant", "ack", 0⟩, ⟨"user", "task", 0⟩]) ∧
    adjacencyOK (compressHistory 3 1 false (some "summary")
      [⟨"system", "ctx", 0⟩, ⟨"assistant", "ack", 0⟩, ⟨"user", "task", 0⟩,
       ⟨"user", "go", 0⟩, ⟨"assistant", "work", 2⟩, ⟨"tool", "r1", 0⟩,
       ⟨"tool", "r2", 0⟩]) := by
  have h := compress_history_spec 3 1 false (some "summary")
    [⟨"system", "ctx", 0⟩, ⟨"assistant", "ack", 0⟩, ⟨"user", "task", 0⟩,
     ⟨"user", "go", 0⟩, ⟨"assistant", "work", 2⟩, ⟨"tool", "r1", 0⟩,
     ⟨"tool", "r2", 0⟩]
    (by decide)
    (by
      show WFHistory [⟨"user", "go", 0⟩, ⟨"assistant", "work", 2⟩,
        ⟨"tool", "r1", 0⟩, ⟨"tool", "r2", 0⟩]
      refine WFHistory.plain _ _ (by decide) (by decide) ?_
      refine WFHistory.group ⟨"assistant", "work", 2⟩
        [⟨"tool", "r1", 0⟩, ⟨"tool", "r2", 0⟩] [] (by decide) ?_ (by decide)
        WFHistory.nil
      intro t ht
      simp only [List.mem_cons, List.mem_singleton, List.not_mem_nil, or_false] at ht
      rcases ht with rfl | rfl <;> rfl)
    (by
      intro m hm
      simp only [List.take] at hm
      simp only [List.mem_cons, List.not_mem_nil, or_false] at hm
      rcases hm with rfl | rfl | rfl <;> rfl)
    (Or.inl (by decide))
  refine ⟨?_, h.2⟩
  rw [h.1]
  rfl
